import Mathlib

/-!
# PdfDate: parsing and rendering of PDF date strings

A shallow embedding of `src/podofo/base/PdfDate.cpp`.

* A C string (`const char*`) is the list of characters stored at and after the
  cursor. Reading `*p` is `peek`: the head of the list, or NUL when the list is
  exhausted (the terminator). A NUL stored inside the list is read as a
  terminator as well, exactly as the C code would see it.
* `p++` is only ever executed after the character under the cursor has been
  checked to be a non-NUL character, so it is a pattern match on `c :: rest`.
* `int` accumulators that can grow with the input are wrapped to 32 bits
  (`wrapInt`); `time_t` is an unbounded integer (64-bit `time_t` holds every
  value the program can produce for years 0..9999).
* `timegm`, `localtime` and `strftime` belong to the C library. The parser takes
  `timegm` as a parameter; `timegm` below is the model of the C library function.
-/

namespace PoDoFo

/-- The string terminator. -/
def NUL : Char := Char.ofNat 0

/-- The single quote character that brackets the minute offset. -/
def QUOTE : Char := Char.ofNat 39

/-- Reading `*p`: the character under the cursor, NUL at the end of the text. -/
def peek (p : List Char) : Char := p.headD NUL

/-- The C library predicate `isdigit` in the C locale. -/
def isdigit (c : Char) : Bool := decide (48 ≤ c.toNat) && decide (c.toNat ≤ 57)

/-- Two's complement wrap of a mathematical integer into a 32-bit `int`. -/
def wrapInt (x : Int) : Int := (x + 2147483648) % 4294967296 - 2147483648

/-- The text of a C string: the characters before the first NUL. -/
def cstr (p : List Char) : List Char := p.takeWhile (fun c => c ≠ NUL)

/-- Result tags of `ParseFixLenNumber`. -/
inductive EParseFixLenNumberResult where
  | Ok
  | Missing
  | Error
  deriving DecidableEq, Repr

open EParseFixLenNumberResult

/-- The digit loop of `ParseFixLenNumber`: `i` iterations remain, `inp` is the
cursor and `ret` the accumulator. The flag is false when a non-digit (or the
terminator) stopped the loop; the cursor is then left on that character. -/
def ParseFixLenNumber.loop : Nat → List Char → Int → Bool × List Char × Int
  | 0, inp, ret => (true, inp, ret)
  | _ + 1, [], ret => (false, [], ret)
  | i + 1, c :: rest, ret =>
    if isdigit c then
      ParseFixLenNumber.loop i rest (wrapInt (ret * 10 + ((c.toNat : Int) - 48)))
    else (false, c :: rest, ret)

/-- Parse a fixed length number. Returns the result tag, the cursor after the
call and the value of the output parameter `ret_` after the call (which is
written only on success). The cursor is never null in the program, so the
`in == NULL` tests are not modelled. -/
def ParseFixLenNumber (inp : List Char) (length : Nat) (min max : Int) (ret_ : Int) :
    EParseFixLenNumberResult × List Char × Int :=
  if peek inp = NUL ∨ peek inp = '+' ∨ peek inp = '-' ∨ peek inp = 'Z' then
    (Missing, inp, ret_)
  else
    match ParseFixLenNumber.loop length inp 0 with
    | (false, cur, _) => (Error, cur, ret_)
    | (true, cur, ret) =>
      if ret < min ∨ ret > max then (Error, cur, ret_) else (Ok, cur, ret)

/-- The fields of `struct tm` that the program reads or writes. `tm_gmtoff` is the
offset of local time from UTC in seconds, which `strftime` prints for `%z`. -/
structure tm where
  tm_sec : Int
  tm_min : Int
  tm_hour : Int
  tm_mday : Int
  tm_mon : Int
  tm_year : Int
  tm_gmtoff : Int
  deriving DecidableEq, Repr

/-- The fifth block of `ParseOptionalFields`: the second. -/
def ParseOptionalFields.sec (pszDate : List Char) (_tm : tm) : Bool × List Char × tm :=
  match ParseFixLenNumber pszDate 2 0 59 _tm.tm_sec with
  | (Error, p, v) => (false, p, { _tm with tm_sec := v })
  | (_, p, v) => (true, p, { _tm with tm_sec := v })

/-- The fourth block of `ParseOptionalFields`: the minute, then the second. -/
def ParseOptionalFields.min (pszDate : List Char) (_tm : tm) : Bool × List Char × tm :=
  match ParseFixLenNumber pszDate 2 0 59 _tm.tm_min with
  | (Error, p, v) => (false, p, { _tm with tm_min := v })
  | (Missing, p, v) => (true, p, { _tm with tm_min := v })
  | (Ok, p, v) => ParseOptionalFields.sec p { _tm with tm_min := v }

/-- The third block of `ParseOptionalFields`: the hour, then the rest. -/
def ParseOptionalFields.hour (pszDate : List Char) (_tm : tm) : Bool × List Char × tm :=
  match ParseFixLenNumber pszDate 2 0 23 _tm.tm_hour with
  | (Error, p, v) => (false, p, { _tm with tm_hour := v })
  | (Missing, p, v) => (true, p, { _tm with tm_hour := v })
  | (Ok, p, v) => ParseOptionalFields.min p { _tm with tm_hour := v }

/-- The second block of `ParseOptionalFields`: the day, then the rest. -/
def ParseOptionalFields.mday (pszDate : List Char) (_tm : tm) : Bool × List Char × tm :=
  match ParseFixLenNumber pszDate 2 1 31 _tm.tm_mday with
  | (Error, p, v) => (false, p, { _tm with tm_mday := v })
  | (Missing, p, v) => (true, p, { _tm with tm_mday := v })
  | (Ok, p, v) => ParseOptionalFields.hour p { _tm with tm_mday := v }

/-- Scan the optional fields month, day, hour, minute and second. Returns the
success flag, the cursor and the updated calendar structure. The function is
written as its five blocks in order, each block continuing with the next one
when its field is present and well formed. -/
def ParseOptionalFields (pszDate : List Char) (_tm : tm) : Bool × List Char × tm :=
  match ParseFixLenNumber pszDate 2 1 12 _tm.tm_mon with
  | (Error, p, v) => (false, p, { _tm with tm_mon := v })
  | (Missing, p, v) => (true, p, { _tm with tm_mon := v })
  | (Ok, p, v) => ParseOptionalFields.mday p { _tm with tm_mon := v - 1 }

/-- The tail of `ParseZoneShift` after the zone text has been consumed: the
trailing-text check, the calendar conversion and the shift. -/
def ParseZoneShift.finish (timegm : tm → Int) (pszDate : List Char) (_tm : tm)
    (nZoneShift nZoneHour nZoneMin : Int) : Int × List Char :=
  if peek pszDate ≠ NUL then (-1, pszDate)
  else
    let m_time := timegm _tm
    if m_time = -1 then (m_time, pszDate)
    else (m_time + nZoneShift * (nZoneHour * 3600 + nZoneMin * 60), pszDate)

/-- Resolve the optional zone and convert to a timestamp. Returns the timestamp
(or -1) and the cursor. -/
def ParseZoneShift (timegm : tm → Int) (pszDate : List Char) (_tm : tm) : Int × List Char :=
  match pszDate with
  | [] => ParseZoneShift.finish timegm pszDate _tm 0 0 0
  | c :: rest =>
    if c = NUL then ParseZoneShift.finish timegm pszDate _tm 0 0 0
    else
      let sign : Option Int :=
        if c = '+' then some (-1)
        else if c = '-' then some 1
        else if c = 'Z' then some 0
        else none
      match sign with
      | none => (-1, pszDate)
      | some nZoneShift =>
        match ParseFixLenNumber rest 2 0 59 0 with
        | (Ok, p, nZoneHour) =>
          (match p with
          | q :: p1 =>
            if q = QUOTE then
              (match ParseFixLenNumber p1 2 0 59 0 with
              | (Ok, p2, nZoneMin) =>
                (match p2 with
                | q2 :: p3 =>
                  if q2 = QUOTE then
                    ParseZoneShift.finish timegm p3 _tm nZoneShift nZoneHour nZoneMin
                  else (-1, p2)
                | [] => (-1, p2))
              | (_, p2, _) => (-1, p2))
            else ParseZoneShift.finish timegm p _tm nZoneShift nZoneHour 0
          | [] => ParseZoneShift.finish timegm p _tm nZoneShift nZoneHour 0)
        | (_, p, _) => (-1, p)

/-- The string collaborator: whether the value is valid and its character data
(`none` for a null pointer). -/
structure PdfString where
  IsValid : Bool
  GetString : Option (List Char)

/-- The observable state of a `PdfDate`: the timestamp, the validity flag and the
text buffer. -/
structure PdfDate where
  m_time : Int
  m_bValid : Bool
  m_szDate : List Char
  deriving DecidableEq, Repr

/-- The calendar structure after `memset` to zero and `tm_mday = 1`. -/
def tmInit : tm :=
  { tm_sec := 0, tm_min := 0, tm_hour := 0, tm_mday := 1, tm_mon := 0, tm_year := 0,
    tm_gmtoff := 0 }

/-- The part of the constructor `PdfDate(const PdfString&)` that follows the
prefix handling: year, optional fields, zone. Returns `m_time` and `m_bValid`. -/
def PdfDate.parseFrom (timegm : tm → Int) (pszDate : List Char) : Int × Bool :=
  match ParseFixLenNumber pszDate 4 0 9999 tmInit.tm_year with
  | (Ok, p, year) =>
    let tm0 := { tmInit with tm_year := year - 1900 }
    (match ParseOptionalFields p tm0 with
    | (false, _, _) => (-1, false)
    | (true, p1, tm1) =>
      let m_time := (ParseZoneShift timegm p1 tm1).1
      (m_time, decide (m_time ≠ -1)))
  | _ => (-1, false)

/-- The timestamp and validity flag computed by `PdfDate(const PdfString&)` from
the character data. -/
def PdfDate.parse (timegm : tm → Int) (pszDate : List Char) : Int × Bool :=
  match pszDate with
  | c :: rest =>
    if c = 'D' then
      (match rest with
      | c1 :: rest1 => if c1 ≠ ':' then (-1, false) else PdfDate.parseFrom timegm rest1
      | [] => (-1, false))
    else PdfDate.parseFrom timegm pszDate
  | [] => PdfDate.parseFrom timegm pszDate

/-- The constructor `PdfDate(const PdfString&)`. `PDF_DATE_BUFFER_SIZE` is a
constant of the header, taken as a parameter. The buffer receives the first
`PDF_DATE_BUFFER_SIZE` characters of the text (`strncpy`); for a null pointer,
where the copy is undefined in C, the buffer is left empty. -/
def PdfDate.ofString (timegm : tm → Int) (PDF_DATE_BUFFER_SIZE : Nat) (sDate : PdfString) :
    PdfDate :=
  if !sDate.IsValid then { m_time := -1, m_bValid := false, m_szDate := [] }
  else
    match sDate.GetString with
    | none => { m_time := -1, m_bValid := false, m_szDate := [] }
    | some s =>
      let r := PdfDate.parse timegm s
      { m_time := r.1, m_bValid := r.2, m_szDate := (cstr s).take PDF_DATE_BUFFER_SIZE }

/-- Leap year test of the proleptic Gregorian calendar. -/
def isLeapYear (y : Int) : Bool :=
  decide (y % 4 = 0) && (decide (y % 100 ≠ 0) || decide (y % 400 = 0))

/-- Days of a common year before the given month (0 = January). -/
def daysBeforeMonth (mon : Int) : Int :=
  if mon = 0 then 0 else if mon = 1 then 31 else if mon = 2 then 59
  else if mon = 3 then 90 else if mon = 4 then 120 else if mon = 5 then 151
  else if mon = 6 then 181 else if mon = 7 then 212 else if mon = 8 then 243
  else if mon = 9 then 273 else if mon = 10 then 304 else 334

/-- Days from 1970-01-01 to the first day of year `y`. -/
def daysBeforeYear (y : Int) : Int :=
  365 * (y - 1970) + ((y - 1) / 4 - (y - 1) / 100 + (y - 1) / 400) - 477

/-- Model of the C library function `timegm` with a 64-bit `time_t`: the fields
are read as UTC civil time of the proleptic Gregorian calendar, `tm_mon` is
normalised into 0..11 by carrying into the year, and the other fields are
added linearly, so that a day beyond the end of the month runs into the next
month. It returns -1 only when the instant itself is -1. -/
def timegm (t : tm) : Int :=
  let y := t.tm_year + 1900 + t.tm_mon / 12
  let m := t.tm_mon % 12
  let days := daysBeforeYear y + daysBeforeMonth m
    + (if isLeapYear y ∧ 2 ≤ m then 1 else 0) + (t.tm_mday - 1)
  days * 86400 + t.tm_hour * 3600 + t.tm_min * 60 + t.tm_sec

/-! ## Text of a date: the vocabulary of the statements -/

/-- The decimal digit character of `d % 10`. -/
def digitChar (d : Nat) : Char := Char.ofNat (48 + d % 10)

/-- Two decimal digits, zero padded. -/
def digits2 (n : Nat) : List Char := [digitChar (n / 10), digitChar n]

/-- Four decimal digits, zero padded. -/
def digits4 (n : Nat) : List Char :=
  [digitChar (n / 1000), digitChar (n / 100), digitChar (n / 10), digitChar n]

/-! ## The render path

`localtime` is a parameter. `strftime` is modelled for the two formats that the
program uses; it yields `none` where the C function returns 0 because the text
and its terminator do not fit into `maxsize` characters. -/

/-- The decimal value of a sequence of digit characters. -/
def decimalValue (ds : List Char) : Nat :=
  ds.foldl (fun a c => a * 10 + (c.toNat - 48)) 0

/-- The characters at which `ParseFixLenNumber` reports a missing field. -/
def isSentinel (c : Char) : Bool :=
  decide (c = NUL) || decide (c = '+') || decide (c = '-') || decide (c = 'Z')

/-- A zone section: the sentinel character, the hour offset and the optional
quoted minute offset. -/
structure Zone where
  sign : Char
  hour : Nat
  minute : Option Nat
  deriving DecidableEq, Repr

/-- A date string in structured form: whether the `D:` marker is present, the
year, the optional fields that are present (month, day, hour, minute, second,
in this order) and the optional zone section. -/
structure DateText where
  marker : Bool
  year : Nat
  fields : List Nat
  zone : Option Zone
  deriving DecidableEq, Repr

/-- Inclusive ranges of month, day, hour, minute and second. -/
def fieldRanges : List (Nat × Nat) := [(1, 12), (1, 31), (0, 23), (0, 59), (0, 59)]

/-- Each value lies in the range at its position; no more values than ranges. -/
def inRanges : List (Nat × Nat) → List Nat → Bool
  | _, [] => true
  | [], _ :: _ => false
  | (lo, hi) :: rs, v :: vs => decide (lo ≤ v) && decide (v ≤ hi) && inRanges rs vs

/-- The optional fields are at most five and each is in its range. -/
def fieldsOk (fs : List Nat) : Bool := inRanges fieldRanges fs

/-- A zone section as the code accepts it: a sentinel `+`, `-` or `Z`, an hour
offset 0..59 and, when present, a minute offset 0..59. -/
def Zone.ok (z : Zone) : Bool :=
  (decide (z.sign = '+') || decide (z.sign = '-') || decide (z.sign = 'Z'))
    && decide (z.hour ≤ 59)
    && (match z.minute with
        | none => true
        | some m => decide (m ≤ 59))

/-- Well-formedness of a structured date: year 0..9999, fields in range, zone
well formed. -/
def DateText.ok (d : DateText) : Bool :=
  decide (d.year ≤ 9999) && fieldsOk d.fields
    && (match d.zone with
        | none => true
        | some z => z.ok)

/-- The text of the optional fields: two digits each. -/
def fieldsText : List Nat → List Char
  | [] => []
  | v :: vs => digits2 v ++ fieldsText vs

/-- The text of a zone section. -/
def zoneText : Option Zone → List Char
  | none => []
  | some z =>
    z.sign :: (digits2 z.hour ++
      (match z.minute with
       | none => []
       | some m => QUOTE :: (digits2 m ++ [QUOTE])))

/-- The text of the calendar part: optional marker, year, optional fields. -/
def calendarText (marker : Bool) (year : Nat) (fs : List Nat) : List Char :=
  (if marker then ['D', ':'] else []) ++ (digits4 year ++ fieldsText fs)

/-- The text of a structured date. -/
def DateText.toText (d : DateText) : List Char :=
  calendarText d.marker d.year d.fields ++ zoneText d.zone

/-- The calendar structure of a year and the present optional fields: an omitted
month or day is 1, an omitted hour, minute or second is 0. -/
def civilTm (year : Nat) (fs : List Nat) : tm :=
  { tm_sec := ((fs.getD 4 0 : Nat) : Int),
    tm_min := ((fs.getD 3 0 : Nat) : Int),
    tm_hour := ((fs.getD 2 0 : Nat) : Int),
    tm_mday := ((fs.getD 1 1 : Nat) : Int),
    tm_mon := ((fs.getD 0 1 : Nat) : Int) - 1,
    tm_year := (year : Int) - 1900,
    tm_gmtoff := 0 }

/-- The offset from UTC, in seconds, that a zone section denotes: positive for
`+`, negative for `-`, zero for `Z` and for no zone. -/
def zoneOffset : Option Zone → Int
  | none => 0
  | some z =>
    let amount : Int := (z.hour : Int) * 3600 + ((z.minute.getD 0 : Nat) : Int) * 60
    if z.sign = '+' then amount else if z.sign = '-' then -amount else 0

/-- A valid string collaborator holding the given character data. -/
def PdfString.ofText (s : List Char) : PdfString := { IsValid := true, GetString := some s }

/-- A field of width `w` at the cursor is well formed: `w` characters are there,
all are decimal digits, and their decimal value lies in `lo..hi`. -/
def fieldGood (w lo hi : Nat) (r : List Char) : Bool :=
  decide (w ≤ r.length) && (r.take w).all isdigit
    && decide (lo ≤ decimalValue (r.take w)) && decide (decimalValue (r.take w) ≤ hi)

/-- The number of days of a month (1 = January) in the proleptic Gregorian
calendar. -/
def daysInMonth (year month : Nat) : Nat :=
  if month = 2 then (if isLeapYear (year : Int) then 29 else 28)
  else if month = 4 ∨ month = 6 ∨ month = 9 ∨ month = 11 then 30
  else 31

/-! ## The parse with checked character accesses

A second embedding of the parse, for the bounds of the character accesses. The
cursor is an index into the buffer, and every `*p` of the source is a
`readAt`, which is defined up to and including the terminator and undefined
(`none`) beyond it. The functions return `none` as soon as one access is
undefined. -/

/-- The index of the terminator of the C string stored in `buf`. -/
def termPos (buf : List Char) : Nat := (cstr buf).length

/-- The character access `p[i]`: the stored character, or the terminator at the end
of the stored characters; undefined beyond the terminator of the string. -/
def readAt (buf : List Char) (i : Nat) : Option Char :=
  if i ≤ termPos buf then some (buf.getD i NUL) else none

/-- The digit loop of `ParseFixLenNumber` with checked accesses. -/
def Checked.loop (buf : List Char) : Nat → Nat → Int → Option (Bool × Nat × Int)
  | 0, i, ret => some (true, i, ret)
  | n + 1, i, ret =>
    match readAt buf i with
    | none => none
    | some c =>
      if isdigit c then
        Checked.loop buf n (i + 1) (wrapInt (ret * 10 + ((c.toNat : Int) - 48)))
      else some (false, i, ret)

/-- The function `ParseFixLenNumber` with checked accesses. -/
def Checked.ParseFixLenNumber (buf : List Char) (i : Nat) (length : Nat) (min max : Int)
    (ret_ : Int) : Option (EParseFixLenNumberResult × Nat × Int) :=
  match readAt buf i with
  | none => none
  | some c =>
    if c = NUL ∨ c = '+' ∨ c = '-' ∨ c = 'Z' then some (Missing, i, ret_)
    else
      match Checked.loop buf length i 0 with
      | none => none
      | some (false, cur, _) => some (Error, cur, ret_)
      | some (true, cur, ret) =>
        if ret < min ∨ ret > max then some (Error, cur, ret_) else some (Ok, cur, ret)

/-- The fifth block of `ParseOptionalFields` with checked accesses. -/
def Checked.ParseOptionalFields.sec (buf : List Char) (i : Nat) (_tm : tm) :
    Option (Bool × Nat × tm) :=
  match Checked.ParseFixLenNumber buf i 2 0 59 _tm.tm_sec with
  | none => none
  | some (Error, p, v) => some (false, p, { _tm with tm_sec := v })
  | some (_, p, v) => some (true, p, { _tm with tm_sec := v })

/-- The fourth block of `ParseOptionalFields` with checked accesses. -/
def Checked.ParseOptionalFields.min (buf : List Char) (i : Nat) (_tm : tm) :
    Option (Bool × Nat × tm) :=
  match Checked.ParseFixLenNumber buf i 2 0 59 _tm.tm_min with
  | none => none
  | some (Error, p, v) => some (false, p, { _tm with tm_min := v })
  | some (Missing, p, v) => some (true, p, { _tm with tm_min := v })
  | some (Ok, p, v) => Checked.ParseOptionalFields.sec buf p { _tm with tm_min := v }

/-- The third block of `ParseOptionalFields` with checked accesses. -/
def Checked.ParseOptionalFields.hour (buf : List Char) (i : Nat) (_tm : tm) :
    Option (Bool × Nat × tm) :=
  match Checked.ParseFixLenNumber buf i 2 0 23 _tm.tm_hour with
  | none => none
  | some (Error, p, v) => some (false, p, { _tm with tm_hour := v })
  | some (Missing, p, v) => some (true, p, { _tm with tm_hour := v })
  | some (Ok, p, v) => Checked.ParseOptionalFields.min buf p { _tm with tm_hour := v }

/-- The second block of `ParseOptionalFields` with checked accesses. -/
def Checked.ParseOptionalFields.mday (buf : List Char) (i : Nat) (_tm : tm) :
    Option (Bool × Nat × tm) :=
  match Checked.ParseFixLenNumber buf i 2 1 31 _tm.tm_mday with
  | none => none
  | some (Error, p, v) => some (false, p, { _tm with tm_mday := v })
  | some (Missing, p, v) => some (true, p, { _tm with tm_mday := v })
  | some (Ok, p, v) => Checked.ParseOptionalFields.hour buf p { _tm with tm_mday := v }

/-- The function `ParseOptionalFields` with checked accesses. -/
def Checked.ParseOptionalFields (buf : List Char) (i : Nat) (_tm : tm) :
    Option (Bool × Nat × tm) :=
  match Checked.ParseFixLenNumber buf i 2 1 12 _tm.tm_mon with
  | none => none
  | some (Error, p, v) => some (false, p, { _tm with tm_mon := v })
  | some (Missing, p, v) => some (true, p, { _tm with tm_mon := v })
  | some (Ok, p, v) => Checked.ParseOptionalFields.mday buf p { _tm with tm_mon := v - 1 }

/-- The tail of `ParseZoneShift` with checked accesses. -/
def Checked.finish (timegm : tm → Int) (buf : List Char) (i : Nat) (_tm : tm)
    (nZoneShift nZoneHour nZoneMin : Int) : Option (Int × Nat) :=
  match readAt buf i with
  | none => none
  | some c =>
    if c ≠ NUL then some (-1, i)
    else
      let m_time := timegm _tm
      if m_time = -1 then some (m_time, i)
      else some (m_time + nZoneShift * (nZoneHour * 3600 + nZoneMin * 60), i)

/-- The function `ParseZoneShift` with checked accesses. -/
def Checked.ParseZoneShift (timegm : tm → Int) (buf : List Char) (i : Nat) (_tm : tm) :
    Option (Int × Nat) :=
  match readAt buf i with
  | none => none
  | some c =>
    if c = NUL then Checked.finish timegm buf i _tm 0 0 0
    else
      let sign : Option Int :=
        if c = '+' then some (-1)
        else if c = '-' then some 1
        else if c = 'Z' then some 0
        else none
      match sign with
      | none => some (-1, i)
      | some nZoneShift =>
        match Checked.ParseFixLenNumber buf (i + 1) 2 0 59 0 with
        | none => none
        | some (Ok, p, nZoneHour) =>
          (match readAt buf p with
          | none => none
          | some q =>
            if q = QUOTE then
              (match Checked.ParseFixLenNumber buf (p + 1) 2 0 59 0 with
              | none => none
              | some (Ok, p2, nZoneMin) =>
                (match readAt buf p2 with
                | none => none
                | some q2 =>
                  if q2 = QUOTE then
                    Checked.finish timegm buf (p2 + 1) _tm nZoneShift nZoneHour nZoneMin
                  else some (-1, p2))
              | some (_, p2, _) => some (-1, p2))
            else Checked.finish timegm buf p _tm nZoneShift nZoneHour 0)
        | some (_, p, _) => some (-1, p)

/-- The year, the optional fields and the zone, with checked accesses. -/
def Checked.parseFrom (timegm : tm → Int) (buf : List Char) (i : Nat) : Option (Int × Bool) :=
  match Checked.ParseFixLenNumber buf i 4 0 9999 tmInit.tm_year with
  | none => none
  | some (Ok, p, year) =>
    (match Checked.ParseOptionalFields buf p { tmInit with tm_year := year - 1900 } with
    | none => none
    | some (false, _, _) => some (-1, false)
    | some (true, p1, tm1) =>
      (match Checked.ParseZoneShift timegm buf p1 tm1 with
      | none => none
      | some (m_time, _) => some (m_time, decide (m_time ≠ -1))))
  | some _ => some (-1, false)

/-- The timestamp and validity flag of `PdfDate(const PdfString&)`, with checked
accesses, starting at the first character of the buffer. -/
def Checked.parse (timegm : tm → Int) (buf : List Char) : Option (Int × Bool) :=
  match readAt buf 0 with
  | none => none
  | some c =>
    if c = 'D' then
      (match readAt buf 1 with
      | none => none
      | some c1 => if c1 ≠ ':' then some (-1, false) else Checked.parseFrom timegm buf 2)
    else Checked.parseFrom timegm buf 0

/-! ## The date grammar as a recogniser -/

/-- Two characters are decimal digits whose value lies in `lo..hi`. -/
def twoDigits (lo hi : Nat) (a b : Char) : Bool :=
  isdigit a && isdigit b && decide (lo ≤ decimalValue [a, b])
    && decide (decimalValue [a, b] ≤ hi)

/-- The zone rule as the specification words it: nothing, or `Z` alone, or a sign
with a two-digit hour offset and an optional quoted two-digit minute offset. -/
def specZone : List Char → Bool
  | [] => true
  | [z] => decide (z = 'Z')
  | [s, a, b] => (decide (s = '+') || decide (s = '-')) && twoDigits 0 59 a b
  | [s, a, b, q1, c, d, q2] =>
    (decide (s = '+') || decide (s = '-')) && twoDigits 0 59 a b
      && decide (q1 = QUOTE) && twoDigits 0 59 c d && decide (q2 = QUOTE)
  | _ => false

/-- The zone rule that the code implements: nothing, or one of `+`, `-`, `Z` with
a two-digit hour offset and an optional quoted two-digit minute offset. -/
def codeZone : List Char → Bool
  | [] => true
  | [s, a, b] =>
    (decide (s = '+') || decide (s = '-') || decide (s = 'Z')) && twoDigits 0 59 a b
  | [s, a, b, q1, c, d, q2] =>
    (decide (s = '+') || decide (s = '-') || decide (s = 'Z')) && twoDigits 0 59 a b
      && decide (q1 = QUOTE) && twoDigits 0 59 c d && decide (q2 = QUOTE)
  | _ => false

/-- The optional two-digit fields with the given ranges, in order, each one only
after the previous one, and then the zone with nothing after it. -/
def matchFields (zone : List Char → Bool) : List (Nat × Nat) → List Char → Bool
  | [], r => zone r
  | (lo, hi) :: rs, r =>
    zone r ||
      (match r with
       | a :: b :: rest => twoDigits lo hi a b && matchFields zone rs rest
       | _ => false)

/-- A four-digit year followed by the optional fields and the zone. -/
def matchYear (zone : List Char → Bool) : List Char → Bool
  | a :: b :: c :: d :: rest =>
    isdigit a && isdigit b && isdigit c && isdigit d && matchFields zone fieldRanges rest
  | _ => false

/-- The date grammar with a given zone rule: an optional `D:`, then the year and
what follows it. -/
def matchDate (zone : List Char → Bool) (s : List Char) : Bool :=
  matchYear zone s ||
    (match s with
     | c1 :: c2 :: r => decide (c1 = 'D') && decide (c2 = ':') && matchYear zone r
     | _ => false)

/-- The text after an optional leading `D:`. -/
def stripMarker : List Char → List Char
  | c1 :: c2 :: r => if c1 = 'D' ∧ c2 = ':' then r else c1 :: c2 :: r
  | s => s

/-- The text begins with four decimal digits. -/
def startsWithFourDigits (s : List Char) : Bool :=
  decide (4 ≤ s.length) && (s.take 4).all isdigit

/-! ## Characters and digits -/

theorem digitChar_toNat (d : Nat) : (digitChar d).toNat = 48 + d % 10 := by
  have h : d % 10 < 10 := Nat.mod_lt _ (by decide)
  unfold digitChar
  generalize d % 10 = e at h
  interval_cases e <;> rfl

theorem isdigit_digitChar (d : Nat) : isdigit (digitChar d) = true := by
  have h := digitChar_toNat d
  unfold isdigit
  simp only [h, Bool.and_eq_true, decide_eq_true_eq]
  omega

theorem digitChar_of_isdigit (c : Char) (h : isdigit c = true) :
    c = digitChar (c.toNat - 48) ∧ c.toNat - 48 < 10 ∧ 48 ≤ c.toNat := by
  unfold isdigit at h
  simp only [Bool.and_eq_true, decide_eq_true_eq] at h
  refine ⟨?_, by omega, h.1⟩
  unfold digitChar
  have e : 48 + (c.toNat - 48) % 10 = c.toNat := by omega
  rw [e, Char.ofNat_toNat]

theorem isSentinel_digitChar (d : Nat) : isSentinel (digitChar d) = false := by
  have h : d % 10 < 10 := Nat.mod_lt _ (by decide)
  unfold digitChar
  generalize d % 10 = e at h
  interval_cases e <;> rfl

/-! ## The digit loop -/

theorem wrapInt_small (x : Int) (h0 : 0 ≤ x) (h1 : x < 2147483648) : wrapInt x = x := by
  unfold wrapInt
  omega

theorem decimalValue_nil : decimalValue [] = 0 := rfl

theorem foldl_digits_ge (ds : List Char) (a : Nat) :
    a ≤ ds.foldl (fun a c => a * 10 + (c.toNat - 48)) a := by
  induction ds generalizing a with
  | nil => simp
  | cons c cs ih =>
    simp only [List.foldl_cons]
    have := ih (a * 10 + (c.toNat - 48))
    omega

theorem foldl_digits_lt (ds : List Char) (a : Nat) (hd : ∀ c ∈ ds, isdigit c = true) :
    ds.foldl (fun a c => a * 10 + (c.toNat - 48)) a < (a + 1) * 10 ^ ds.length := by
  induction ds generalizing a with
  | nil => simp
  | cons c cs ih =>
    simp only [List.foldl_cons, List.length_cons]
    have hc := (digitChar_of_isdigit c (hd c (by simp))).2.1
    have h1 := ih (a * 10 + (c.toNat - 48)) (fun x hx => hd x (by simp [hx]))
    have h2 : (a * 10 + (c.toNat - 48) + 1) * 10 ^ cs.length
        ≤ (a + 1) * 10 ^ (cs.length + 1) := by
      have e : (a + 1) * 10 ^ (cs.length + 1) = ((a + 1) * 10) * 10 ^ cs.length := by
        rw [pow_succ]; ring
      rw [e]
      apply Nat.mul_le_mul_right
      omega
    omega

theorem decimalValue_lt (ds : List Char) (hd : ∀ c ∈ ds, isdigit c = true) :
    decimalValue ds < 10 ^ ds.length := by
  have := foldl_digits_lt ds 0 hd
  simpa [decimalValue] using this

theorem loop_flag_iff (w : Nat) (inp : List Char) (acc : Int) :
    (ParseFixLenNumber.loop w inp acc).1 = true
      ↔ w ≤ inp.length ∧ ∀ c ∈ inp.take w, isdigit c = true := by
  induction w generalizing inp acc with
  | zero => simp [ParseFixLenNumber.loop]
  | succ n ih =>
    cases inp with
    | nil => simp [ParseFixLenNumber.loop]
    | cons c rest =>
      by_cases hc : isdigit c = true
      · simp [ParseFixLenNumber.loop, hc, ih]
      · simp [ParseFixLenNumber.loop, hc]

theorem loop_value (w : Nat) (inp : List Char) (a : Nat)
    (hlen : w ≤ inp.length) (hd : ∀ c ∈ inp.take w, isdigit c = true)
    (hsmall : (inp.take w).foldl (fun a c => a * 10 + (c.toNat - 48)) a < 2147483648) :
    ParseFixLenNumber.loop w inp (a : Int)
      = (true, inp.drop w,
          (((inp.take w).foldl (fun a c => a * 10 + (c.toNat - 48)) a : Nat) : Int)) := by
  induction w generalizing inp a with
  | zero => simp [ParseFixLenNumber.loop]
  | succ n ih =>
    cases inp with
    | nil => simp at hlen
    | cons c rest =>
      have hc : isdigit c = true := hd c (by simp)
      have hc48 := (digitChar_of_isdigit c hc).2.2
      simp only [List.take_succ_cons, List.foldl_cons] at hsmall
      have hge := foldl_digits_ge (rest.take n) (a * 10 + (c.toNat - 48))
      have hw : wrapInt ((a : Int) * 10 + ((c.toNat : Int) - 48))
          = ((a * 10 + (c.toNat - 48) : Nat) : Int) := by
        rw [wrapInt_small] <;> omega
      simp only [ParseFixLenNumber.loop, hc, if_true, hw, List.take_succ_cons,
        List.foldl_cons, List.drop_succ_cons]
      exact ih rest (a * 10 + (c.toNat - 48)) (by simpa using hlen)
        (fun x hx => hd x (by simp [hx])) hsmall

theorem loop_digits (w : Nat) (inp : List Char) (hw9 : w ≤ 9)
    (hlen : w ≤ inp.length) (hd : ∀ c ∈ inp.take w, isdigit c = true) :
    ParseFixLenNumber.loop w inp 0
      = (true, inp.drop w, ((decimalValue (inp.take w) : Nat) : Int)) := by
  have hl : (inp.take w).length = w := by simp [hlen]
  have hlt := decimalValue_lt (inp.take w) hd
  rw [hl] at hlt
  have hpow : 10 ^ w ≤ 10 ^ 9 := Nat.pow_le_pow_right (by decide) hw9
  have h := loop_value w inp 0 hlen hd (by
    have : (inp.take w).foldl (fun a c => a * 10 + (c.toNat - 48)) 0
        = decimalValue (inp.take w) := rfl
    rw [this]
    omega)
  simpa [decimalValue] using h

/-! ## ParseFixLenNumber -/

theorem isSentinel_iff (c : Char) :
    isSentinel c = true ↔ (c = NUL ∨ c = '+' ∨ c = '-' ∨ c = 'Z') := by
  simp [isSentinel, or_assoc]

theorem isSentinel_of_isdigit (c : Char) (h : isdigit c = true) : isSentinel c = false := by
  rw [(digitChar_of_isdigit c h).1]
  exact isSentinel_digitChar _

theorem PFN_missing (inp : List Char) (w : Nat) (lo hi r : Int)
    (h : isSentinel (peek inp) = true) :
    ParseFixLenNumber inp w lo hi r = (Missing, inp, r) := by
  rw [isSentinel_iff] at h
  simp [ParseFixLenNumber, h]

theorem PFN_present (inp : List Char) (w : Nat) (lo hi r : Int)
    (h : isSentinel (peek inp) = false) :
    ParseFixLenNumber inp w lo hi r =
      (match ParseFixLenNumber.loop w inp 0 with
       | (false, cur, _) => (Error, cur, r)
       | (true, cur, ret) =>
         if ret < lo ∨ ret > hi then (Error, cur, r) else (Ok, cur, ret)) := by
  have h2 : ¬ (peek inp = NUL ∨ peek inp = '+' ∨ peek inp = '-' ∨ peek inp = 'Z') := by
    rw [← isSentinel_iff, h]; simp
  simp [ParseFixLenNumber, h2]

theorem PFN_digits (inp : List Char) (w : Nat) (lo hi r : Int) (hw : 1 ≤ w) (hw9 : w ≤ 9)
    (hlen : w ≤ inp.length) (hd : ∀ c ∈ inp.take w, isdigit c = true) :
    ParseFixLenNumber inp w lo hi r =
      if lo ≤ (decimalValue (inp.take w) : Int) ∧ (decimalValue (inp.take w) : Int) ≤ hi
      then (Ok, inp.drop w, (decimalValue (inp.take w) : Int))
      else (Error, inp.drop w, r) := by
  have hs : isSentinel (peek inp) = false := by
    cases inp with
    | nil => simp at hlen; omega
    | cons c rest =>
      apply isSentinel_of_isdigit
      apply hd
      cases w with
      | zero => omega
      | succ n => simp [peek]
  rw [PFN_present inp w lo hi r hs, loop_digits w inp hw9 hlen hd]
  by_cases h : lo ≤ (decimalValue (inp.take w) : Int) ∧ (decimalValue (inp.take w) : Int) ≤ hi
  · have h2 : ¬ ((decimalValue (inp.take w) : Int) < lo ∨ (decimalValue (inp.take w) : Int) > hi) := by
      omega
    simp only [h2, h, if_true, if_false, and_self]
  · have h2 : ((decimalValue (inp.take w) : Int) < lo ∨ (decimalValue (inp.take w) : Int) > hi) := by
      omega
    simp only [h2, h, if_true, if_false]

theorem PFN_not_digits (inp : List Char) (w : Nat) (lo hi r : Int)
    (hs : isSentinel (peek inp) = false)
    (hbad : ¬ (w ≤ inp.length ∧ ∀ c ∈ inp.take w, isdigit c = true)) :
    (ParseFixLenNumber inp w lo hi r).1 = Error ∧ (ParseFixLenNumber inp w lo hi r).2.2 = r := by
  rw [PFN_present inp w lo hi r hs]
  have hf : (ParseFixLenNumber.loop w inp 0).1 = false := by
    rw [← Bool.not_eq_true, loop_flag_iff]
    exact hbad
  rcases hl : ParseFixLenNumber.loop w inp 0 with ⟨b, cur, v⟩
  rw [hl] at hf
  simp only at hf
  subst hf
  simp

/-! ## Fixed width digit texts -/

theorem decimalValue_digits2 (n : Nat) (h : n < 100) : decimalValue (digits2 n) = n := by
  simp only [decimalValue, digits2, List.foldl_cons, List.foldl_nil, digitChar_toNat]
  omega

theorem decimalValue_digits4 (n : Nat) (h : n < 10000) : decimalValue (digits4 n) = n := by
  simp only [decimalValue, digits4, List.foldl_cons, List.foldl_nil, digitChar_toNat]
  omega

theorem isdigit_digits2 (n : Nat) : ∀ c ∈ digits2 n, isdigit c = true := by
  intro c hc
  simp only [digits2, List.mem_cons, List.mem_singleton, List.not_mem_nil, or_false] at hc
  rcases hc with h | h <;> subst h <;> exact isdigit_digitChar _

theorem isdigit_digits4 (n : Nat) : ∀ c ∈ digits4 n, isdigit c = true := by
  intro c hc
  simp only [digits4, List.mem_cons, List.mem_singleton, List.not_mem_nil, or_false] at hc
  rcases hc with h | h | h | h <;> subst h <;> exact isdigit_digitChar _

theorem digitChar_congr (a b : Nat) (h : a % 10 = b % 10) : digitChar a = digitChar b := by
  unfold digitChar
  rw [h]

theorem digits2_of_isdigit (a b : Char) (ha : isdigit a = true) (hb : isdigit b = true) :
    [a, b] = digits2 (decimalValue [a, b]) ∧ decimalValue [a, b] < 100 := by
  obtain ⟨ea, la, _⟩ := digitChar_of_isdigit a ha
  obtain ⟨eb, lb, _⟩ := digitChar_of_isdigit b hb
  have hv : decimalValue [a, b] = (a.toNat - 48) * 10 + (b.toNat - 48) := by
    simp [decimalValue]
  refine ⟨?_, by omega⟩
  rw [hv]
  unfold digits2
  have e1 : digitChar (((a.toNat - 48) * 10 + (b.toNat - 48)) / 10) = a := by
    conv_rhs => rw [ea]
    apply digitChar_congr
    omega
  have e2 : digitChar ((a.toNat - 48) * 10 + (b.toNat - 48)) = b := by
    conv_rhs => rw [eb]
    apply digitChar_congr
    omega
  rw [e1, e2]

theorem digits4_of_isdigit (a b c d : Char) (ha : isdigit a = true) (hb : isdigit b = true)
    (hc : isdigit c = true) (hd : isdigit d = true) :
    [a, b, c, d] = digits4 (decimalValue [a, b, c, d]) ∧ decimalValue [a, b, c, d] < 10000 := by
  obtain ⟨ea, la, _⟩ := digitChar_of_isdigit a ha
  obtain ⟨eb, lb, _⟩ := digitChar_of_isdigit b hb
  obtain ⟨ec, lc, _⟩ := digitChar_of_isdigit c hc
  obtain ⟨ed, ld, _⟩ := digitChar_of_isdigit d hd
  have hv : decimalValue [a, b, c, d]
      = (((a.toNat - 48) * 10 + (b.toNat - 48)) * 10 + (c.toNat - 48)) * 10 + (d.toNat - 48) := by
    simp [decimalValue]
  refine ⟨?_, by omega⟩
  rw [hv]
  unfold digits4
  have e1 : digitChar (((((a.toNat - 48) * 10 + (b.toNat - 48)) * 10 + (c.toNat - 48)) * 10
      + (d.toNat - 48)) / 1000) = a := by
    conv_rhs => rw [ea]
    apply digitChar_congr
    omega
  have e2 : digitChar (((((a.toNat - 48) * 10 + (b.toNat - 48)) * 10 + (c.toNat - 48)) * 10
      + (d.toNat - 48)) / 100) = b := by
    conv_rhs => rw [eb]
    apply digitChar_congr
    omega
  have e3 : digitChar (((((a.toNat - 48) * 10 + (b.toNat - 48)) * 10 + (c.toNat - 48)) * 10
      + (d.toNat - 48)) / 10) = c := by
    conv_rhs => rw [ec]
    apply digitChar_congr
    omega
  have e4 : digitChar ((((a.toNat - 48) * 10 + (b.toNat - 48)) * 10 + (c.toNat - 48)) * 10
      + (d.toNat - 48)) = d := by
    conv_rhs => rw [ed]
    apply digitChar_congr
    omega
  rw [e1, e2, e3, e4]

theorem PFN_digits2 (n : Nat) (rest : List Char) (lo hi r : Int) (hn : n < 100) :
    ParseFixLenNumber (digits2 n ++ rest) 2 lo hi r =
      if lo ≤ (n : Int) ∧ (n : Int) ≤ hi then (Ok, rest, (n : Int)) else (Error, rest, r) := by
  have ht : (digits2 n ++ rest).take 2 = digits2 n := by simp [digits2]
  have hdr : (digits2 n ++ rest).drop 2 = rest := by simp [digits2]
  have h := PFN_digits (digits2 n ++ rest) 2 lo hi r (by decide) (by decide)
    (by simp [digits2]) (by rw [ht]; exact isdigit_digits2 n)
  rw [ht, hdr, decimalValue_digits2 n hn] at h
  exact h

theorem PFN_digits4 (n : Nat) (rest : List Char) (lo hi r : Int) (hn : n < 10000) :
    ParseFixLenNumber (digits4 n ++ rest) 4 lo hi r =
      if lo ≤ (n : Int) ∧ (n : Int) ≤ hi then (Ok, rest, (n : Int)) else (Error, rest, r) := by
  have ht : (digits4 n ++ rest).take 4 = digits4 n := by simp [digits4]
  have hdr : (digits4 n ++ rest).drop 4 = rest := by simp [digits4]
  have h := PFN_digits (digits4 n ++ rest) 4 lo hi r (by decide) (by decide)
    (by simp [digits4]) (by rw [ht]; exact isdigit_digits4 n)
  rw [ht, hdr, decimalValue_digits4 n hn] at h
  exact h

/-! ## Inversion of ParseFixLenNumber -/

theorem PFN_tag_cases (inp : List Char) (w : Nat) (lo hi r : Int) (hw : 1 ≤ w) (hw9 : w ≤ 9) :
    (isSentinel (peek inp) = true ∧ ParseFixLenNumber inp w lo hi r = (Missing, inp, r))
    ∨ (isSentinel (peek inp) = false
        ∧ (w ≤ inp.length ∧ ∀ c ∈ inp.take w, isdigit c = true)
        ∧ (lo ≤ (decimalValue (inp.take w) : Int) ∧ (decimalValue (inp.take w) : Int) ≤ hi)
        ∧ ParseFixLenNumber inp w lo hi r
            = (Ok, inp.drop w, (decimalValue (inp.take w) : Int)))
    ∨ (isSentinel (peek inp) = false
        ∧ ¬ ((w ≤ inp.length ∧ ∀ c ∈ inp.take w, isdigit c = true)
              ∧ (lo ≤ (decimalValue (inp.take w) : Int)
                  ∧ (decimalValue (inp.take w) : Int) ≤ hi))
        ∧ (ParseFixLenNumber inp w lo hi r).1 = Error
        ∧ (ParseFixLenNumber inp w lo hi r).2.2 = r) := by
  by_cases hs : isSentinel (peek inp) = true
  · exact Or.inl ⟨hs, PFN_missing inp w lo hi r hs⟩
  · have hs2 : isSentinel (peek inp) = false := by simpa using hs
    by_cases hdig : w ≤ inp.length ∧ ∀ c ∈ inp.take w, isdigit c = true
    · have h := PFN_digits inp w lo hi r hw hw9 hdig.1 hdig.2
      by_cases hr : lo ≤ (decimalValue (inp.take w) : Int)
          ∧ (decimalValue (inp.take w) : Int) ≤ hi
      · rw [if_pos hr] at h
        exact Or.inr (Or.inl ⟨hs2, hdig, hr, h⟩)
      · rw [if_neg hr] at h
        refine Or.inr (Or.inr ⟨hs2, fun hh => hr hh.2, ?_, ?_⟩) <;> rw [h]
    · have h := PFN_not_digits inp w lo hi r hs2 hdig
      exact Or.inr (Or.inr ⟨hs2, fun hh => hdig hh.1, h.1, h.2⟩)

theorem take_two_eq (s : List Char) (h : 2 ≤ s.length) :
    ∃ a b, s.take 2 = [a, b] ∧ s = a :: b :: s.drop 2 := by
  rcases s with _ | ⟨a, _ | ⟨b, t⟩⟩
  · simp at h
  · simp at h
  · exact ⟨a, b, by simp, by simp⟩

theorem take_four_eq (s : List Char) (h : 4 ≤ s.length) :
    ∃ a b c d, s.take 4 = [a, b, c, d] ∧ s = a :: b :: c :: d :: s.drop 4 := by
  rcases s with _ | ⟨a, _ | ⟨b, _ | ⟨c, _ | ⟨d, t⟩⟩⟩⟩
  · simp at h
  · simp at h
  · simp at h
  · simp at h
  · exact ⟨a, b, c, d, by simp, by simp⟩

theorem PFN2_ok_inv (s : List Char) (lo hi r : Int) (cur : List Char) (v : Int)
    (h : ParseFixLenNumber s 2 lo hi r = (Ok, cur, v)) :
    ∃ n : Nat, n < 100 ∧ s = digits2 n ++ cur ∧ v = (n : Int) ∧ lo ≤ (n : Int) ∧ (n : Int) ≤ hi := by
  rcases PFN_tag_cases s 2 lo hi r (by decide) (by decide) with h1 | h1 | h1
  · rw [h1.2] at h; simp at h
  · obtain ⟨_, ⟨hlen, hd⟩, hr, he⟩ := h1
    rw [he] at h
    simp only [Prod.mk.injEq, true_and] at h
    obtain ⟨a, b, ht, hs⟩ := take_two_eq s hlen
    rw [ht] at hd hr h
    have hab := digits2_of_isdigit a b (hd a (by simp)) (hd b (by simp))
    refine ⟨decimalValue [a, b], hab.2, ?_, h.2.symm, hr.1, hr.2⟩
    rw [← hab.1, ← h.1]
    exact hs
  · rw [h] at h1; simp at h1

theorem PFN4_ok_inv (s : List Char) (lo hi r : Int) (cur : List Char) (v : Int)
    (h : ParseFixLenNumber s 4 lo hi r = (Ok, cur, v)) :
    ∃ n : Nat, n < 10000 ∧ s = digits4 n ++ cur ∧ v = (n : Int)
      ∧ lo ≤ (n : Int) ∧ (n : Int) ≤ hi := by
  rcases PFN_tag_cases s 4 lo hi r (by decide) (by decide) with h1 | h1 | h1
  · rw [h1.2] at h; simp at h
  · obtain ⟨_, ⟨hlen, hd⟩, hr, he⟩ := h1
    rw [he] at h
    simp only [Prod.mk.injEq, true_and] at h
    obtain ⟨a, b, c, d, ht, hs⟩ := take_four_eq s hlen
    rw [ht] at hd hr h
    have hab := digits4_of_isdigit a b c d (hd a (by simp)) (hd b (by simp))
      (hd c (by simp)) (hd d (by simp))
    refine ⟨decimalValue [a, b, c, d], hab.2, ?_, h.2.symm, hr.1, hr.2⟩
    rw [← hab.1, ← h.1]
    exact hs
  · rw [h] at h1; simp at h1

theorem PFN_missing_inv (s : List Char) (w : Nat) (lo hi r : Int) (cur : List Char) (v : Int)
    (hw : 1 ≤ w) (hw9 : w ≤ 9)
    (h : ParseFixLenNumber s w lo hi r = (Missing, cur, v)) :
    isSentinel (peek s) = true ∧ cur = s ∧ v = r := by
  rcases PFN_tag_cases s w lo hi r hw hw9 with h1 | h1 | h1
  · rw [h1.2] at h
    simp only [Prod.mk.injEq, true_and] at h
    exact ⟨h1.1, h.1.symm, h.2.symm⟩
  · rw [h1.2.2.2] at h; simp at h
  · rw [h] at h1; simp at h1

/-! ## ParseOptionalFields -/

theorem PFN_digits2_ok (n : Nat) (rest : List Char) (lo hi r : Int) (hn : n < 100)
    (hlo : lo ≤ (n : Int)) (hhi : (n : Int) ≤ hi) :
    ParseFixLenNumber (digits2 n ++ rest) 2 lo hi r = (Ok, rest, (n : Int)) := by
  rw [PFN_digits2 n rest lo hi r hn, if_pos ⟨hlo, hhi⟩]

theorem PFN_digits4_ok (n : Nat) (rest : List Char) (lo hi r : Int) (hn : n < 10000)
    (hlo : lo ≤ (n : Int)) (hhi : (n : Int) ≤ hi) :
    ParseFixLenNumber (digits4 n ++ rest) 4 lo hi r = (Ok, rest, (n : Int)) := by
  rw [PFN_digits4 n rest lo hi r hn, if_pos ⟨hlo, hhi⟩]

theorem ParseOptionalFields_fields (year : Nat) (fs : List Nat) (rest : List Char)
    (hfs : fieldsOk fs = true) (hrest : fs.length < 5 → isSentinel (peek rest) = true) :
    ParseOptionalFields (fieldsText fs ++ rest) { tmInit with tm_year := (year : Int) - 1900 }
      = (true, rest, civilTm year fs) := by
  rcases fs with _ | ⟨mo, _ | ⟨d, _ | ⟨h, _ | ⟨mi, _ | ⟨sc, _ | ⟨x, t⟩⟩⟩⟩⟩⟩
  · have hr := hrest (by simp)
    simp only [fieldsText, List.append_assoc, List.nil_append, List.append_nil]
    unfold ParseOptionalFields
    rw [PFN_missing _ _ _ _ _ hr]
    rfl
  · have hr := hrest (by simp)
    simp [fieldsOk, inRanges, fieldRanges] at hfs
    simp only [fieldsText, List.append_assoc, List.nil_append, List.append_nil]
    unfold ParseOptionalFields
    rw [PFN_digits2_ok mo _ _ _ _ (by omega) (by omega) (by omega)]
    simp only []
    unfold ParseOptionalFields.mday
    rw [PFN_missing _ _ _ _ _ hr]
    rfl
  · have hr := hrest (by simp)
    simp [fieldsOk, inRanges, fieldRanges] at hfs
    simp only [fieldsText, List.append_assoc, List.nil_append, List.append_nil]
    unfold ParseOptionalFields
    rw [PFN_digits2_ok mo _ _ _ _ (by omega) (by omega) (by omega)]
    simp only []
    unfold ParseOptionalFields.mday
    rw [PFN_digits2_ok d _ _ _ _ (by omega) (by omega) (by omega)]
    simp only []
    unfold ParseOptionalFields.hour
    rw [PFN_missing _ _ _ _ _ hr]
    rfl
  · have hr := hrest (by simp)
    simp [fieldsOk, inRanges, fieldRanges] at hfs
    simp only [fieldsText, List.append_assoc, List.nil_append, List.append_nil]
    unfold ParseOptionalFields
    rw [PFN_digits2_ok mo _ _ _ _ (by omega) (by omega) (by omega)]
    simp only []
    unfold ParseOptionalFields.mday
    rw [PFN_digits2_ok d _ _ _ _ (by omega) (by omega) (by omega)]
    simp only []
    unfold ParseOptionalFields.hour
    rw [PFN_digits2_ok h _ _ _ _ (by omega) (by omega) (by omega)]
    simp only []
    unfold ParseOptionalFields.min
    rw [PFN_missing _ _ _ _ _ hr]
    rfl
  · have hr := hrest (by simp)
    simp [fieldsOk, inRanges, fieldRanges] at hfs
    simp only [fieldsText, List.append_assoc, List.nil_append, List.append_nil]
    unfold ParseOptionalFields
    rw [PFN_digits2_ok mo _ _ _ _ (by omega) (by omega) (by omega)]
    simp only []
    unfold ParseOptionalFields.mday
    rw [PFN_digits2_ok d _ _ _ _ (by omega) (by omega) (by omega)]
    simp only []
    unfold ParseOptionalFields.hour
    rw [PFN_digits2_ok h _ _ _ _ (by omega) (by omega) (by omega)]
    simp only []
    unfold ParseOptionalFields.min
    rw [PFN_digits2_ok mi _ _ _ _ (by omega) (by omega) (by omega)]
    simp only []
    unfold ParseOptionalFields.sec
    rw [PFN_missing _ _ _ _ _ hr]
    rfl
  · clear hrest
    simp [fieldsOk, inRanges, fieldRanges] at hfs
    simp only [fieldsText, List.append_assoc, List.nil_append, List.append_nil]
    unfold ParseOptionalFields
    rw [PFN_digits2_ok mo _ _ _ _ (by omega) (by omega) (by omega)]
    simp only []
    unfold ParseOptionalFields.mday
    rw [PFN_digits2_ok d _ _ _ _ (by omega) (by omega) (by omega)]
    simp only []
    unfold ParseOptionalFields.hour
    rw [PFN_digits2_ok h _ _ _ _ (by omega) (by omega) (by omega)]
    simp only []
    unfold ParseOptionalFields.min
    rw [PFN_digits2_ok mi _ _ _ _ (by omega) (by omega) (by omega)]
    simp only []
    unfold ParseOptionalFields.sec
    rw [PFN_digits2_ok sc _ _ _ _ (by omega) (by omega) (by omega)]
    simp only []
    rfl
  · simp [fieldsOk, inRanges, fieldRanges] at hfs

theorem ParseOptionalFields_inv (year : Nat) (p cur : List Char) (t1 : tm)
    (h : ParseOptionalFields p { tmInit with tm_year := (year : Int) - 1900 } = (true, cur, t1)) :
    ∃ fs : List Nat, fieldsOk fs = true ∧ p = fieldsText fs ++ cur ∧ t1 = civilTm year fs
      ∧ (fs.length < 5 → isSentinel (peek cur) = true) := by
  unfold ParseOptionalFields at h
  split at h
  · simp at h
  · rename_i q v hq
    obtain ⟨hs, e1, e2⟩ := PFN_missing_inv _ _ _ _ _ _ _ (by decide) (by decide) hq
    simp only [Prod.mk.injEq, true_and] at h
    obtain ⟨hc, ht⟩ := h
    subst hc ht e1 e2
    refine ⟨[], ?_, ?_, rfl, fun _ => hs⟩
    · simp [fieldsOk, inRanges, fieldRanges]
    · simp [fieldsText]
  · rename_i q v hq
    obtain ⟨mo, hlt0, e0, ev0, lo0, hi0⟩ := PFN2_ok_inv _ _ _ _ _ _ hq
    subst e0 ev0
    unfold ParseOptionalFields.mday at h
    split at h
    · simp at h
    · rename_i q v hq
      obtain ⟨hs, e1, e2⟩ := PFN_missing_inv _ _ _ _ _ _ _ (by decide) (by decide) hq
      simp only [Prod.mk.injEq, true_and] at h
      obtain ⟨hc, ht⟩ := h
      subst hc ht e1 e2
      refine ⟨[mo], ?_, ?_, rfl, fun _ => hs⟩
      · simp [fieldsOk, inRanges, fieldRanges]; omega
      · simp [fieldsText]
    · rename_i q v hq
      obtain ⟨d, hlt1, e1, ev1, lo1, hi1⟩ := PFN2_ok_inv _ _ _ _ _ _ hq
      subst e1 ev1
      unfold ParseOptionalFields.hour at h
      split at h
      · simp at h
      · rename_i q v hq
        obtain ⟨hs, e1, e2⟩ := PFN_missing_inv _ _ _ _ _ _ _ (by decide) (by decide) hq
        simp only [Prod.mk.injEq, true_and] at h
        obtain ⟨hc, ht⟩ := h
        subst hc ht e1 e2
        refine ⟨[mo, d], ?_, ?_, rfl, fun _ => hs⟩
        · simp [fieldsOk, inRanges, fieldRanges]; omega
        · simp [fieldsText]
      · rename_i q v hq
        obtain ⟨hh, hlt2, e2, ev2, lo2, hi2⟩ := PFN2_ok_inv _ _ _ _ _ _ hq
        subst e2 ev2
        unfold ParseOptionalFields.min at h
        split at h
        · simp at h
        · rename_i q v hq
          obtain ⟨hs, e1, e2⟩ := PFN_missing_inv _ _ _ _ _ _ _ (by decide) (by decide) hq
          simp only [Prod.mk.injEq, true_and] at h
          obtain ⟨hc, ht⟩ := h
          subst hc ht e1 e2
          refine ⟨[mo, d, hh], ?_, ?_, rfl, fun _ => hs⟩
          · simp [fieldsOk, inRanges, fieldRanges]; omega
          · simp [fieldsText]
        · rename_i q v hq
          obtain ⟨mi, hlt3, e3, ev3, lo3, hi3⟩ := PFN2_ok_inv _ _ _ _ _ _ hq
          subst e3 ev3
          unfold ParseOptionalFields.sec at h
          split at h
          · simp at h
          · rename_i tag q v hne hq
            simp only [Prod.mk.injEq, true_and] at h
            obtain ⟨hc, ht⟩ := h
            subst hc ht
            cases tag with
            | Error => exact absurd rfl hne
            | Missing =>
              obtain ⟨hs, e1, e2⟩ := PFN_missing_inv _ _ _ _ _ _ _ (by decide) (by decide) hq
              subst e1 e2
              refine ⟨[mo, d, hh, mi], ?_, ?_, rfl, fun _ => hs⟩
              · simp [fieldsOk, inRanges, fieldRanges]; omega
              · simp [fieldsText]
            | Ok =>
              obtain ⟨sc, hlt4, e4, ev4, lo4, hi4⟩ := PFN2_ok_inv _ _ _ _ _ _ hq
              subst e4 ev4
              refine ⟨[mo, d, hh, mi, sc], ?_, ?_, rfl, fun hl => ?_⟩
              · simp [fieldsOk, inRanges, fieldRanges]; omega
              · simp [fieldsText]
              · simp at hl

/-! ## ParseZoneShift -/

theorem zone_sign_cases (z : Zone) (hz : z.ok = true) :
    (z.sign = '+' ∨ z.sign = '-' ∨ z.sign = 'Z') ∧ z.hour ≤ 59
      ∧ (∀ m, z.minute = some m → m ≤ 59) := by
  unfold Zone.ok at hz
  simp only [Bool.and_eq_true, Bool.or_eq_true, decide_eq_true_eq] at hz
  refine ⟨by tauto, hz.1.2, fun m hm => ?_⟩
  have h3 := hz.2
  rw [hm] at h3
  simpa using h3

theorem finish_nil (tg : tm → Int) (t : tm) (sh zh zm : Int) :
    (ParseZoneShift.finish tg [] t sh zh zm).1
      = if tg t = -1 then -1 else tg t + sh * (zh * 3600 + zm * 60) := by
  unfold ParseZoneShift.finish
  have h : ¬ (peek [] ≠ NUL) := by simp [peek]
  rw [if_neg h]
  by_cases h1 : tg t = -1
  · simp [h1]
  · simp [h1]

theorem ParseZoneShift_zoneText (tg : tm → Int) (t : tm) (z : Option Zone)
    (hz : ∀ z0, z = some z0 → z0.ok = true) :
    (ParseZoneShift tg (zoneText z) t).1 = if tg t = -1 then -1 else tg t - zoneOffset z := by
  cases z with
  | none =>
    simp only [zoneText, ParseZoneShift, zoneOffset, finish_nil]
    simp
  | some z0 =>
    obtain ⟨hsign, hh, hm⟩ := zone_sign_cases z0 (hz z0 rfl)
    rcases z0 with ⟨sg, zh, zmin⟩
    simp only at hsign hh hm
    have hnn : sg ≠ NUL := by
      rcases hsign with h | h | h <;> subst h <;> decide
    cases zmin with
    | none =>
      have e := PFN_digits2_ok zh [] 0 59 0 (by omega) (by omega) (by omega)
      rw [List.append_nil] at e
      simp only [zoneText, ParseZoneShift, List.append_nil, if_neg hnn]
      rw [e]
      rcases hsign with h | h | h <;> subst h
      all_goals simp [finish_nil, zoneOffset]
      all_goals try (split_ifs <;> ring)
    | some m =>
      have hm59 := hm m rfl
      simp only [zoneText, ParseZoneShift, if_neg hnn]
      rw [PFN_digits2_ok zh _ 0 59 0 (by omega) (by omega) (by omega)]
      simp only [List.cons_append, if_true]
      rw [PFN_digits2_ok m _ 0 59 0 (by omega) (by omega) (by omega)]
      rcases hsign with h | h | h <;> subst h
      all_goals simp [finish_nil, zoneOffset]
      all_goals try (split_ifs <;> ring)

/-! ## Text before the terminator -/

theorem cstr_nil : cstr [] = [] := rfl

theorem cstr_cons_ne (c : Char) (s : List Char) (h : c ≠ NUL) : cstr (c :: s) = c :: cstr s := by
  simp [cstr, List.takeWhile_cons, h]

theorem cstr_of_peek_NUL (s : List Char) (h : peek s = NUL) : cstr s = [] := by
  cases s with
  | nil => rfl
  | cons c t =>
    simp only [peek, List.headD_cons] at h
    simp [cstr, List.takeWhile_cons, h]

theorem digitChar_ne_NUL (d : Nat) : digitChar d ≠ NUL := by
  intro h
  have h1 := digitChar_toNat d
  rw [h] at h1
  have h2 : NUL.toNat = 0 := rfl
  omega

theorem cstr_digits2 (n : Nat) (s : List Char) : cstr (digits2 n ++ s) = digits2 n ++ cstr s := by
  simp only [digits2, List.cons_append, List.nil_append]
  rw [cstr_cons_ne _ _ (digitChar_ne_NUL _), cstr_cons_ne _ _ (digitChar_ne_NUL _)]

theorem cstr_digits4 (n : Nat) (s : List Char) : cstr (digits4 n ++ s) = digits4 n ++ cstr s := by
  simp only [digits4, List.cons_append, List.nil_append]
  rw [cstr_cons_ne _ _ (digitChar_ne_NUL _), cstr_cons_ne _ _ (digitChar_ne_NUL _),
    cstr_cons_ne _ _ (digitChar_ne_NUL _), cstr_cons_ne _ _ (digitChar_ne_NUL _)]

theorem cstr_fieldsText (fs : List Nat) (s : List Char) :
    cstr (fieldsText fs ++ s) = fieldsText fs ++ cstr s := by
  induction fs with
  | nil => rfl
  | cons v vs ih =>
    simp only [fieldsText, List.append_assoc]
    rw [cstr_digits2, ih]

theorem finish_inv (tg : tm → Int) (p : List Char) (t : tm) (sh zh zm r : Int)
    (hr : (ParseZoneShift.finish tg p t sh zh zm).1 = r) (h : r ≠ -1) :
    peek p = NUL ∧ tg t ≠ -1 ∧ r = tg t + sh * (zh * 3600 + zm * 60) := by
  unfold ParseZoneShift.finish at hr
  by_cases h1 : peek p ≠ NUL
  · rw [if_pos h1] at hr
    exact absurd hr.symm h
  · rw [if_neg h1] at hr
    simp only at hr
    by_cases h2 : tg t = -1
    · rw [if_pos h2] at hr
      rw [h2] at hr
      exact absurd hr.symm h
    · rw [if_neg h2] at hr
      exact ⟨by simpa using h1, h2, hr.symm⟩

theorem ParseZoneShift_inv (tg : tm → Int) (p : List Char) (t : tm) (r : Int)
    (hr : (ParseZoneShift tg p t).1 = r) (h : r ≠ -1) :
    ∃ z : Option Zone, (∀ z0, z = some z0 → z0.ok = true) ∧ cstr p = zoneText z
      ∧ tg t ≠ -1 ∧ r = tg t - zoneOffset z := by
  unfold ParseZoneShift at hr
  split at hr
  · obtain ⟨_, h2, h3⟩ := finish_inv tg _ t _ _ _ r hr h
    exact ⟨none, by simp, rfl, h2, by simpa [zoneOffset] using h3⟩
  · rename_i c rest
    by_cases hc : c = NUL
    · rw [if_pos hc] at hr
      obtain ⟨h1, h2, h3⟩ := finish_inv tg _ t _ _ _ r hr h
      exact ⟨none, by simp, by rw [cstr_of_peek_NUL _ h1]; rfl, h2, by simpa [zoneOffset] using h3⟩
    · rw [if_neg hc] at hr
      simp only at hr
      split at hr
      · exact absurd hr.symm h
      · rename_i sh hsh
        have hsgn : (c = '+' ∧ sh = -1) ∨ (c = '-' ∧ sh = 1) ∨ (c = 'Z' ∧ sh = 0) := by
          by_cases c1 : c = '+'
          · simp [c1] at hsh; exact Or.inl ⟨c1, hsh.symm⟩
          · by_cases c2 : c = '-'
            · simp [c1, c2] at hsh; exact Or.inr (Or.inl ⟨c2, hsh.symm⟩)
            · by_cases c3 : c = 'Z'
              · simp [c1, c2, c3] at hsh; exact Or.inr (Or.inr ⟨c3, hsh.symm⟩)
              · simp [c1, c2, c3] at hsh
        clear hsh
        split at hr
        · rename_i p1 zh hq
          obtain ⟨nh, hnh, e1, ev1, lo1, hi1⟩ := PFN2_ok_inv _ _ _ _ _ _ hq
          subst e1 ev1
          have hok : ∀ mn : Option Nat, (∀ m, mn = some m → m ≤ 59) →
              Zone.ok ⟨c, nh, mn⟩ = true := by
            intro mn hmn
            have hnh : nh ≤ 59 := by omega
            have hc3 : c = '+' ∨ c = '-' ∨ c = 'Z' := by
              rcases hsgn with g | g | g
              · exact Or.inl g.1
              · exact Or.inr (Or.inl g.1)
              · exact Or.inr (Or.inr g.1)
            cases mn with
            | none => simp [Zone.ok, hnh]; tauto
            | some m => simp [Zone.ok, hnh, hmn m rfl]; tauto
          have hval : ∀ (mn : Option Nat) (zm : Int), zm = ((mn.getD 0 : Nat) : Int) →
              r = tg t + sh * ((nh : Int) * 3600 + zm * 60) →
              r = tg t - zoneOffset (some ⟨c, nh, mn⟩) := by
            intro mn zm hzm hrr
            subst hzm
            rw [hrr]
            rcases hsgn with g | g | g <;> obtain ⟨g1, g2⟩ := g <;> subst g1 g2 <;>
              simp [zoneOffset] <;> ring
          split at hr
          · rename_i q p2
            by_cases hq1 : q = QUOTE
            · rw [if_pos hq1] at hr
              split at hr
              · rename_i p3 zm hq2
                obtain ⟨nm, hnm, e2, ev2, lo2, hi2⟩ := PFN2_ok_inv _ _ _ _ _ _ hq2
                subst e2 ev2
                split at hr
                · rename_i q2 p4
                  by_cases hq3 : q2 = QUOTE
                  · rw [if_pos hq3] at hr
                    obtain ⟨g1, g2, g3⟩ := finish_inv tg _ t _ _ _ r hr h
                    refine ⟨some ⟨c, nh, some nm⟩, ?_, ?_, g2, hval (some nm) _ rfl g3⟩
                    · intro z0 hz0
                      cases hz0
                      exact hok (some nm) (fun m hm => by cases hm; omega)
                    · subst hq1 hq3
                      rw [cstr_cons_ne _ _ hc, cstr_digits2,
                        cstr_cons_ne _ _ (by decide), cstr_digits2,
                        cstr_cons_ne _ _ (by decide), cstr_of_peek_NUL _ g1]
                      rfl
                  · rw [if_neg hq3] at hr
                    exact absurd hr.symm h
                · exact absurd hr.symm h
              · exact absurd hr.symm h
            · rw [if_neg hq1] at hr
              obtain ⟨g1, g2, g3⟩ := finish_inv tg _ t _ _ _ r hr h
              refine ⟨some ⟨c, nh, none⟩, ?_, ?_, g2, hval none _ rfl g3⟩
              · intro z0 hz0
                cases hz0
                exact hok none (fun m hm => by cases hm)
              · rw [cstr_cons_ne _ _ hc, cstr_digits2, cstr_of_peek_NUL _ g1]
                rfl
          · obtain ⟨g1, g2, g3⟩ := finish_inv tg _ t _ _ _ r hr h
            refine ⟨some ⟨c, nh, none⟩, ?_, ?_, g2, hval none _ rfl g3⟩
            · intro z0 hz0
              cases hz0
              exact hok none (fun m hm => by cases hm)
            · rw [cstr_cons_ne _ _ hc, cstr_digits2]
              rfl
        · exact absurd hr.symm h

/-! ## The whole parse on structured dates -/

theorem peek_zoneText (z : Option Zone) (hz : ∀ z0, z = some z0 → z0.ok = true) :
    isSentinel (peek (zoneText z)) = true := by
  cases z with
  | none => rfl
  | some z0 =>
    obtain ⟨hsign, _, _⟩ := zone_sign_cases z0 (hz z0 rfl)
    simp only [zoneText, peek, List.headD_cons]
    rw [isSentinel_iff]
    exact Or.inr hsign

theorem DateText_ok_parts (d : DateText) (hd : d.ok = true) :
    d.year ≤ 9999 ∧ fieldsOk d.fields = true ∧ (∀ z0, d.zone = some z0 → z0.ok = true) := by
  unfold DateText.ok at hd
  simp only [Bool.and_eq_true, decide_eq_true_eq] at hd
  refine ⟨hd.1.1, hd.1.2, fun z0 hz0 => ?_⟩
  have h3 := hd.2
  rw [hz0] at h3
  exact h3

theorem parseFrom_year (tg : tm → Int) (year : Nat) (rest : List Char)
    (hy : year ≤ 9999) :
    PdfDate.parseFrom tg (digits4 year ++ rest)
      = (match ParseOptionalFields rest { tmInit with tm_year := (year : Int) - 1900 } with
         | (false, _, _) => (-1, false)
         | (true, p1, tm1) =>
           ((ParseZoneShift tg p1 tm1).1, decide ((ParseZoneShift tg p1 tm1).1 ≠ -1))) := by
  unfold PdfDate.parseFrom
  rw [PFN_digits4_ok year _ 0 9999 _ (by omega) (by omega) (by omega)]

theorem parseFrom_text (tg : tm → Int) (year : Nat) (fs : List Nat) (z : Option Zone)
    (hy : year ≤ 9999) (hfs : fieldsOk fs = true) (hz : ∀ z0, z = some z0 → z0.ok = true) :
    PdfDate.parseFrom tg (digits4 year ++ (fieldsText fs ++ zoneText z))
      = ((if tg (civilTm year fs) = -1 then -1 else tg (civilTm year fs) - zoneOffset z),
         decide ((if tg (civilTm year fs) = -1 then -1
                  else tg (civilTm year fs) - zoneOffset z) ≠ -1)) := by
  rw [parseFrom_year tg year _ hy]
  rw [ParseOptionalFields_fields year fs (zoneText z) hfs (fun _ => peek_zoneText z hz)]
  simp only []
  rw [ParseZoneShift_zoneText tg _ z hz]

theorem digitChar_ne_D (d : Nat) : digitChar d ≠ 'D' := by
  intro h
  have h1 := digitChar_toNat d
  rw [h] at h1
  have h2 : ('D' : Char).toNat = 68 := rfl
  omega

theorem parse_toText (tg : tm → Int) (d : DateText) (hd : d.ok = true) :
    PdfDate.parse tg d.toText
      = ((if tg (civilTm d.year d.fields) = -1 then -1
          else tg (civilTm d.year d.fields) - zoneOffset d.zone),
         decide ((if tg (civilTm d.year d.fields) = -1 then -1
                  else tg (civilTm d.year d.fields) - zoneOffset d.zone) ≠ -1)) := by
  obtain ⟨hy, hfs, hz⟩ := DateText_ok_parts d hd
  rw [← parseFrom_text tg d.year d.fields d.zone hy hfs hz]
  unfold DateText.toText calendarText
  cases hm : d.marker with
  | true =>
    simp only [if_true, List.cons_append, List.nil_append, List.append_assoc]
    unfold PdfDate.parse
    simp
  | false =>
    simp only [Bool.false_eq_true, if_false, List.nil_append, List.append_assoc]
    unfold PdfDate.parse
    simp only [digits4, List.cons_append, if_neg (digitChar_ne_D _)]

/-! ## Inversion of the whole parse -/

theorem parseFrom_inv (tg : tm → Int) (p : List Char) (r : Int)
    (h : PdfDate.parseFrom tg p = (r, true)) :
    ∃ (year : Nat) (fs : List Nat) (z : Option Zone),
      year ≤ 9999 ∧ fieldsOk fs = true ∧ (∀ z0, z = some z0 → z0.ok = true)
      ∧ cstr p = digits4 year ++ (fieldsText fs ++ zoneText z)
      ∧ tg (civilTm year fs) ≠ -1
      ∧ r = tg (civilTm year fs) - zoneOffset z := by
  unfold PdfDate.parseFrom at h
  split at h
  · rename_i p1 yv hq
    obtain ⟨year, hlt, e1, ev1, lo1, hi1⟩ := PFN4_ok_inv _ _ _ _ _ _ hq
    subst e1 ev1
    simp only [] at h
    split at h
    · simp at h
    · rename_i p2 t1 hpo
      obtain ⟨fs, hfs, e2, et, hsent⟩ := ParseOptionalFields_inv year _ _ _ hpo
      subst e2 et
      simp only [Prod.mk.injEq, decide_eq_true_eq] at h
      obtain ⟨hr, hne⟩ := h
      rw [hr] at hne
      obtain ⟨z, hz, hc, hne1, hval⟩ := ParseZoneShift_inv tg _ _ r hr hne
      refine ⟨year, fs, z, by omega, hfs, hz, ?_, hne1, hval⟩
      rw [cstr_digits4, cstr_fieldsText, hc]
  · simp at h

theorem parse_inv (tg : tm → Int) (s : List Char) (r : Int)
    (h : PdfDate.parse tg s = (r, true)) :
    ∃ d : DateText, d.ok = true ∧ cstr s = d.toText
      ∧ tg (civilTm d.year d.fields) ≠ -1
      ∧ r = tg (civilTm d.year d.fields) - zoneOffset d.zone := by
  have build : ∀ (mk : Bool) (p : List Char), PdfDate.parseFrom tg p = (r, true) →
      cstr s = (if mk then ['D', ':'] else []) ++ cstr p →
      ∃ d : DateText, d.ok = true ∧ cstr s = d.toText
        ∧ tg (civilTm d.year d.fields) ≠ -1
        ∧ r = tg (civilTm d.year d.fields) - zoneOffset d.zone := by
    intro mk p hp hs
    obtain ⟨year, fs, z, hy, hfs, hz, hc, hne, hval⟩ := parseFrom_inv tg p r hp
    refine ⟨⟨mk, year, fs, z⟩, ?_, ?_, hne, hval⟩
    · unfold DateText.ok
      simp only [hy, hfs, decide_True, Bool.and_self, Bool.true_and]
      cases z with
      | none => rfl
      | some z0 => exact hz z0 rfl
    · rw [hs, hc]
      simp [DateText.toText, calendarText]
  unfold PdfDate.parse at h
  split at h
  · rename_i c rest
    by_cases hD : c = 'D'
    · rw [if_pos hD] at h
      split at h
      · rename_i c1 rest1
        by_cases hcol : c1 ≠ ':'
        · rw [if_pos hcol] at h
          simp at h
        · rw [if_neg hcol] at h
          have hcol2 : c1 = ':' := by simpa using hcol
          subst hD hcol2
          apply build true rest1 h
          rw [cstr_cons_ne _ _ (by decide), cstr_cons_ne _ _ (by decide)]
          rfl
      · simp at h
    · rw [if_neg hD] at h
      exact build false _ h (by simp)
  · exact build false _ h (by simp)

/-! ## The parse after a well-formed calendar part -/

theorem parse_marker (tg : tm → Int) (mk : Bool) (year : Nat) (rest : List Char) :
    PdfDate.parse tg ((if mk then ['D', ':'] else []) ++ (digits4 year ++ rest))
      = PdfDate.parseFrom tg (digits4 year ++ rest) := by
  cases mk with
  | true =>
    simp only [if_true, List.cons_append, List.nil_append]
    unfold PdfDate.parse
    simp
  | false =>
    simp only [Bool.false_eq_true, if_false, List.nil_append]
    unfold PdfDate.parse
    simp only [digits4, List.cons_append, if_neg (digitChar_ne_D _)]

theorem parse_calendarText (tg : tm → Int) (mk : Bool) (year : Nat) (fs : List Nat)
    (rest : List Char) (hy : year ≤ 9999) (hfs : fieldsOk fs = true)
    (hrest : fs.length < 5 → isSentinel (peek rest) = true) :
    PdfDate.parse tg (calendarText mk year fs ++ rest)
      = ((ParseZoneShift tg rest (civilTm year fs)).1,
         decide ((ParseZoneShift tg rest (civilTm year fs)).1 ≠ -1)) := by
  unfold calendarText
  rw [List.append_assoc, List.append_assoc, parse_marker, parseFrom_year tg year _ hy,
    ParseOptionalFields_fields year fs rest hfs hrest]

/-! ## The constructor from a string -/

theorem ofString_ofText (tg : tm → Int) (N : Nat) (s : List Char) :
    PdfDate.ofString tg N (PdfString.ofText s)
      = { m_time := (PdfDate.parse tg s).1, m_bValid := (PdfDate.parse tg s).2,
          m_szDate := (cstr s).take N } := rfl

theorem ofString_valid_inv (tg : tm → Int) (N : Nat) (sDate : PdfString)
    (h : (PdfDate.ofString tg N sDate).m_bValid = true) :
    sDate.IsValid = true ∧ ∃ s, sDate.GetString = some s
      ∧ PdfDate.parse tg s = ((PdfDate.ofString tg N sDate).m_time, true) := by
  unfold PdfDate.ofString at h ⊢
  cases hv : sDate.IsValid with
  | false => simp [hv] at h
  | true =>
    cases hg : sDate.GetString with
    | none => simp [hv, hg] at h
    | some s =>
      simp only [hv, hg, Bool.not_true, Bool.false_eq_true, if_false] at h ⊢
      exact ⟨trivial, s, rfl, by rw [← h]⟩

/-- C1: whenever the constructor from a string reports a valid date, the text of
the string is a well-formed structured date (marker, year, fields, zone) and the
timestamp is the calendar conversion of its fields (omitted month and day 1,
omitted hour, minute, second 0) minus the zone offset: minus
`hour*3600 + minute*60` for `+`, plus that amount for `-`, unshifted without a
zone. -/
theorem C1_timestamp_of_accepted (tg : tm → Int) (N : Nat) (sDate : PdfString)
    (h : (PdfDate.ofString tg N sDate).m_bValid = true) :
    ∃ (s : List Char) (d : DateText), sDate.GetString = some s ∧ d.ok = true
      ∧ cstr s = d.toText
      ∧ (PdfDate.ofString tg N sDate).m_time
          = tg (civilTm d.year d.fields) - zoneOffset d.zone := by
  obtain ⟨_, s, hs, hp⟩ := ofString_valid_inv tg N sDate h
  obtain ⟨d, hd, hc, _, hval⟩ := parse_inv tg s _ hp
  exact ⟨s, d, hs, hd, hc, hval⟩

/-- C1 (witness): the two strings of the claim and their timestamps. -/
theorem C1_witness :
    PdfDate.ofString timegm 26 (PdfString.ofText "D:20240101120000+05'30'".toList)
        = { m_time := 1704090600, m_bValid := true,
            m_szDate := "D:20240101120000+05'30'".toList }
    ∧ PdfDate.ofString timegm 26 (PdfString.ofText "D:20240101120000-05'00'".toList)
        = { m_time := 1704128400, m_bValid := true,
            m_szDate := "D:20240101120000-05'00'".toList }
    ∧ ∃ (s : List Char) (d : DateText),
        (PdfString.ofText "D:20240101120000+05'30'".toList).GetString = some s
        ∧ d.ok = true ∧ cstr s = d.toText
        ∧ (PdfDate.ofString timegm 26
              (PdfString.ofText "D:20240101120000+05'30'".toList)).m_time
            = timegm (civilTm d.year d.fields) - zoneOffset d.zone :=
  ⟨by decide, by decide,
    C1_timestamp_of_accepted timegm 26
      (PdfString.ofText "D:20240101120000+05'30'".toList) (by decide)⟩

/-- C2 (counterexample): the string `D:20240101120000Z`, whose zone section is
the single character `Z`, is rejected. -/
theorem C2_counterexample :
    PdfDate.ofString timegm 26 (PdfString.ofText "D:20240101120000Z".toList)
      = { m_time := -1, m_bValid := false, m_szDate := "D:20240101120000Z".toList } := by
  decide

theorem ParseZoneShift_Z_alone (tg : tm → Int) (t : tm) :
    (ParseZoneShift tg ['Z'] t).1 = -1 := by
  have hn : ('Z' : Char) ≠ NUL := by decide
  simp only [ParseZoneShift, if_neg hn]
  rw [PFN_missing [] 2 0 59 0 (by rfl)]
  simp

/-- C2 (amended): after well-formed calendar fields, a zone made of `Z` and a
two-digit hour offset 00..59 is parsed with zero shift: the timestamp is the
calendar conversion of the fields, and the date is valid unless that conversion
is -1. With `Z` alone, without offset digits, the parse is invalid with
timestamp -1. -/
theorem C2_zone_Z (tg : tm → Int) (N : Nat) (mk : Bool) (year : Nat) (fs : List Nat)
    (zh : Nat) (hy : year ≤ 9999) (hfs : fieldsOk fs = true) (hzh : zh ≤ 59) :
    (PdfDate.ofString tg N
        (PdfString.ofText (calendarText mk year fs ++ 'Z' :: digits2 zh))).m_time
      = tg (civilTm year fs)
    ∧ (PdfDate.ofString tg N
        (PdfString.ofText (calendarText mk year fs ++ 'Z' :: digits2 zh))).m_bValid
      = decide (tg (civilTm year fs) ≠ -1)
    ∧ (PdfDate.ofString tg N
        (PdfString.ofText (calendarText mk year fs ++ ['Z']))).m_time = -1
    ∧ (PdfDate.ofString tg N
        (PdfString.ofText (calendarText mk year fs ++ ['Z']))).m_bValid = false := by
  have hz : ∀ z0, (some (⟨'Z', zh, none⟩ : Zone)) = some z0 → z0.ok = true := by
    intro z0 h0
    cases h0
    simp [Zone.ok, hzh]
  have h1 := parseFrom_text tg year fs (some ⟨'Z', zh, none⟩) hy hfs hz
  have e1 : calendarText mk year fs ++ 'Z' :: digits2 zh
      = (if mk then ['D', ':'] else []) ++ (digits4 year
          ++ (fieldsText fs ++ zoneText (some ⟨'Z', zh, none⟩))) := by
    simp [calendarText, zoneText]
  have h2 := parse_calendarText tg mk year fs ['Z'] hy hfs (fun _ => by rfl)
  rw [ParseZoneShift_Z_alone] at h2
  simp only [ofString_ofText]
  rw [e1, parse_marker, h1, h2]
  have hoff : zoneOffset (some (⟨'Z', zh, none⟩ : Zone)) = 0 := by
    simp [zoneOffset]
  rw [hoff]
  refine ⟨?_, ?_, rfl, rfl⟩
  · simp only [sub_zero]
    split_ifs with h
    · exact h.symm
    · rfl
  · simp only [sub_zero]
    split_ifs with h
    · simp [h]
    · rfl

/-- C2 (witness): `D:20240101120000Z00` and `D:20240101120000Z`. -/
theorem C2_witness :
    calendarText true 2024 [1, 1, 12, 0, 0] ++ 'Z' :: digits2 0 = "D:20240101120000Z00".toList
    ∧ timegm (civilTm 2024 [1, 1, 12, 0, 0]) = 1704110400
    ∧ (PdfDate.ofString timegm 26
        (PdfString.ofText (calendarText true 2024 [1, 1, 12, 0, 0] ++ 'Z' :: digits2 0))).m_time
      = timegm (civilTm 2024 [1, 1, 12, 0, 0])
    ∧ (PdfDate.ofString timegm 26
        (PdfString.ofText (calendarText true 2024 [1, 1, 12, 0, 0] ++ 'Z' :: digits2 0))).m_bValid
      = decide (timegm (civilTm 2024 [1, 1, 12, 0, 0]) ≠ -1)
    ∧ (PdfDate.ofString timegm 26
        (PdfString.ofText (calendarText true 2024 [1, 1, 12, 0, 0] ++ ['Z']))).m_time = -1
    ∧ (PdfDate.ofString timegm 26
        (PdfString.ofText (calendarText true 2024 [1, 1, 12, 0, 0] ++ ['Z']))).m_bValid = false :=
  ⟨by decide, by decide,
    C2_zone_Z timegm 26 true 2024 [1, 1, 12, 0, 0] 0 (by decide) (by decide) (by decide)⟩

/-! ## Truncation at a field boundary -/

theorem timegm_ne_of_sec_zero (t : tm) (hs : t.tm_sec = 0) : timegm t ≠ -1 := by
  unfold timegm
  simp only [hs]
  generalize daysBeforeYear (t.tm_year + 1900 + t.tm_mon / 12) + daysBeforeMonth (t.tm_mon % 12)
    + (if isLeapYear (t.tm_year + 1900 + t.tm_mon / 12) = true ∧ 2 ≤ t.tm_mon % 12 then 1 else 0)
    + (t.tm_mday - 1) = D
  omega

theorem inRanges_take (rs : List (Nat × Nat)) (fs : List Nat) (k : Nat)
    (h : inRanges rs fs = true) : inRanges rs (fs.take k) = true := by
  induction rs generalizing fs k with
  | nil =>
    cases fs with
    | nil => simp [inRanges]
    | cons v vs => simp [inRanges] at h
  | cons r rs ih =>
    cases fs with
    | nil => simp [inRanges]
    | cons v vs =>
      cases k with
      | zero => simp [inRanges]
      | succ k =>
        obtain ⟨lo, hi⟩ := r
        simp only [inRanges, Bool.and_eq_true, decide_eq_true_eq] at h
        simp only [List.take_succ_cons, inRanges, Bool.and_eq_true, decide_eq_true_eq]
        exact ⟨h.1, ih vs k h.2⟩

theorem fieldsText_take_drop (fs : List Nat) (k : Nat) :
    fieldsText fs = fieldsText (fs.take k) ++ fieldsText (fs.drop k) := by
  induction fs generalizing k with
  | nil => simp [fieldsText]
  | cons v vs ih =>
    cases k with
    | zero => simp [fieldsText]
    | succ k =>
      simp only [List.take_succ_cons, List.drop_succ_cons, fieldsText, List.append_assoc]
      rw [← ih k]

theorem civilTm_sec_of_short (year : Nat) (fs : List Nat) (h : fs.length < 5) :
    (civilTm year fs).tm_sec = 0 := by
  unfold civilTm
  simp only
  rw [List.getD_eq_default _ _ (by omega)]
  rfl

theorem parse_calendar_only (tg : tm → Int) (mk : Bool) (year : Nat) (fs : List Nat)
    (hy : year ≤ 9999) (hfs : fieldsOk fs = true) (hne : tg (civilTm year fs) ≠ -1) :
    PdfDate.parse tg (calendarText mk year fs) = (tg (civilTm year fs), true) := by
  have h := parse_calendarText tg mk year fs [] hy hfs (fun _ => by rfl)
  rw [List.append_nil] at h
  have hz : (ParseZoneShift tg [] (civilTm year fs)).1 = tg (civilTm year fs) := by
    simp only [ParseZoneShift, finish_nil, if_neg hne]
    ring
  rw [h, hz]
  simp [hne]

/-- C3: when the constructor reports a valid date for a string that has all six
calendar fields, every truncation of the string at a field boundary (year only,
year and month, ..., through seconds, without the zone) is valid as well, and
its timestamp is the conversion of the kept fields with omitted month and day
1 and omitted hour, minute and second 0. -/
theorem C3_field_aligned_truncation (N : Nat) (sDate : PdfString)
    (h : (PdfDate.ofString timegm N sDate).m_bValid = true) :
    ∃ (s : List Char) (d : DateText), sDate.GetString = some s ∧ d.ok = true
      ∧ cstr s = d.toText
      ∧ (d.fields.length = 5 → ∀ k, k ≤ 5 →
          (∃ rest, d.toText = calendarText d.marker d.year (d.fields.take k) ++ rest)
          ∧ (PdfDate.ofString timegm N
              (PdfString.ofText (calendarText d.marker d.year (d.fields.take k)))).m_bValid
              = true
          ∧ (PdfDate.ofString timegm N
              (PdfString.ofText (calendarText d.marker d.year (d.fields.take k)))).m_time
              = timegm (civilTm d.year (d.fields.take k))) := by
  obtain ⟨_, s, hs, hp⟩ := ofString_valid_inv timegm N sDate h
  obtain ⟨d, hd, hc, hne, _⟩ := parse_inv timegm s _ hp
  refine ⟨s, d, hs, hd, hc, fun hlen k hk => ?_⟩
  obtain ⟨hy, hfs, _⟩ := DateText_ok_parts d hd
  have hfk : fieldsOk (d.fields.take k) = true := inRanges_take _ _ k hfs
  have hnek : timegm (civilTm d.year (d.fields.take k)) ≠ -1 := by
    by_cases h5 : k = 5
    · rw [h5, List.take_of_length_le (by omega)]
      exact hne
    · apply timegm_ne_of_sec_zero
      apply civilTm_sec_of_short
      rw [List.length_take]
      omega
  have hpk := parse_calendar_only timegm d.marker d.year (d.fields.take k) hy hfk hnek
  refine ⟨⟨fieldsText (d.fields.drop k) ++ zoneText d.zone, ?_⟩, ?_, ?_⟩
  · unfold DateText.toText calendarText
    rw [fieldsText_take_drop d.fields k]
    simp only [List.append_assoc]
  · rw [ofString_ofText, hpk]
  · rw [ofString_ofText, hpk]

/-- C3 (witness): the truncations of `D:20240101120000+05'30'`, and the year-only
string `D:2024`. -/
theorem C3_witness :
    PdfDate.ofString timegm 26 (PdfString.ofText "D:2024".toList)
        = { m_time := 1704067200, m_bValid := true, m_szDate := "D:2024".toList }
    ∧ ∃ (s : List Char) (d : DateText),
        (PdfString.ofText "D:20240101120000+05'30'".toList).GetString = some s
        ∧ d.ok = true ∧ cstr s = d.toText
        ∧ (d.fields.length = 5 → ∀ k, k ≤ 5 →
            (∃ rest, d.toText = calendarText d.marker d.year (d.fields.take k) ++ rest)
            ∧ (PdfDate.ofString timegm 26
                (PdfString.ofText (calendarText d.marker d.year (d.fields.take k)))).m_bValid
                = true
            ∧ (PdfDate.ofString timegm 26
                (PdfString.ofText (calendarText d.marker d.year (d.fields.take k)))).m_time
                = timegm (civilTm d.year (d.fields.take k))) :=
  ⟨by decide,
    C3_field_aligned_truncation 26 (PdfString.ofText "D:20240101120000+05'30'".toList)
      (by decide)⟩

/-! ## Malformed fields -/

theorem fieldGood_iff (w lo hi : Nat) (r : List Char) :
    fieldGood w lo hi r = true ↔
      ((w ≤ r.length ∧ ∀ c ∈ r.take w, isdigit c = true)
        ∧ (((lo : Nat) : Int) ≤ (decimalValue (r.take w) : Int)
            ∧ (decimalValue (r.take w) : Int) ≤ ((hi : Nat) : Int))) := by
  unfold fieldGood
  simp only [Bool.and_eq_true, decide_eq_true_eq, List.all_eq_true, Nat.cast_le]
  tauto

theorem PFN_bad (inp : List Char) (w : Nat) (lo hi : Int) (hw : 1 ≤ w) (hw9 : w ≤ 9)
    (hs : isSentinel (peek inp) = false)
    (hbad : ¬ ((w ≤ inp.length ∧ ∀ c ∈ inp.take w, isdigit c = true)
                ∧ (lo ≤ (decimalValue (inp.take w) : Int)
                    ∧ (decimalValue (inp.take w) : Int) ≤ hi))) :
    ∃ p, ∀ r0, ParseFixLenNumber inp w lo hi r0 = (Error, p, r0) := by
  by_cases hdig : w ≤ inp.length ∧ ∀ c ∈ inp.take w, isdigit c = true
  · refine ⟨inp.drop w, fun r0 => ?_⟩
    rw [PFN_digits inp w lo hi r0 hw hw9 hdig.1 hdig.2, if_neg (fun hh => hbad ⟨hdig, hh⟩)]
  · have hf : (ParseFixLenNumber.loop w inp 0).1 = false := by
      rw [← Bool.not_eq_true, loop_flag_iff]
      exact hdig
    refine ⟨(ParseFixLenNumber.loop w inp 0).2.1, fun r0 => ?_⟩
    rw [PFN_present inp w lo hi r0 hs]
    rcases hl : ParseFixLenNumber.loop w inp 0 with ⟨b, cur, v⟩
    rw [hl] at hf
    simp only at hf
    subst hf
    rfl

theorem PFN_bad_nat (inp : List Char) (w lo hi : Nat) (hw : 1 ≤ w) (hw9 : w ≤ 9)
    (hs : isSentinel (peek inp) = false) (hbad : fieldGood w lo hi inp = false) :
    ∃ p, ∀ r0, ParseFixLenNumber inp w (lo : Int) (hi : Int) r0 = (Error, p, r0) := by
  apply PFN_bad inp w lo hi hw hw9 hs
  rw [← fieldGood_iff, hbad]
  simp

theorem ParseOptionalFields_bad (year : Nat) (fs : List Nat) (r : List Char) (lo hi : Nat)
    (hfs : fieldsOk fs = true) (hrange : fieldRanges[fs.length]? = some (lo, hi))
    (hs : isSentinel (peek r) = false) (hbad : fieldGood 2 lo hi r = false) :
    (ParseOptionalFields (fieldsText fs ++ r)
      { tmInit with tm_year := (year : Int) - 1900 }).1 = false := by
  obtain ⟨q, hq⟩ := PFN_bad_nat r 2 lo hi (by decide) (by decide) hs hbad
  rcases fs with _ | ⟨mo, _ | ⟨d, _ | ⟨h, _ | ⟨mi, _ | ⟨sc, t⟩⟩⟩⟩⟩
  · simp [fieldsOk, inRanges, fieldRanges] at hfs hrange
    obtain ⟨hl, hh⟩ := hrange
    subst hl hh
    simp only [Nat.cast_ofNat, Nat.cast_one, Nat.cast_zero] at hq
    simp only [fieldsText, List.append_assoc, List.nil_append, List.append_nil]
    unfold ParseOptionalFields
    rw [hq]
  · simp [fieldsOk, inRanges, fieldRanges] at hfs hrange
    obtain ⟨hl, hh⟩ := hrange
    subst hl hh
    simp only [Nat.cast_ofNat, Nat.cast_one, Nat.cast_zero] at hq
    simp only [fieldsText, List.append_assoc, List.nil_append, List.append_nil]
    unfold ParseOptionalFields
    rw [PFN_digits2_ok mo _ _ _ _ (by omega) (by omega) (by omega)]
    simp only []
    unfold ParseOptionalFields.mday
    rw [hq]
  · simp [fieldsOk, inRanges, fieldRanges] at hfs hrange
    obtain ⟨hl, hh⟩ := hrange
    subst hl hh
    simp only [Nat.cast_ofNat, Nat.cast_one, Nat.cast_zero] at hq
    simp only [fieldsText, List.append_assoc, List.nil_append, List.append_nil]
    unfold ParseOptionalFields
    rw [PFN_digits2_ok mo _ _ _ _ (by omega) (by omega) (by omega)]
    simp only []
    unfold ParseOptionalFields.mday
    rw [PFN_digits2_ok d _ _ _ _ (by omega) (by omega) (by omega)]
    simp only []
    unfold ParseOptionalFields.hour
    rw [hq]
  · simp [fieldsOk, inRanges, fieldRanges] at hfs hrange
    obtain ⟨hl, hh⟩ := hrange
    subst hl hh
    simp only [Nat.cast_ofNat, Nat.cast_one, Nat.cast_zero] at hq
    simp only [fieldsText, List.append_assoc, List.nil_append, List.append_nil]
    unfold ParseOptionalFields
    rw [PFN_digits2_ok mo _ _ _ _ (by omega) (by omega) (by omega)]
    simp only []
    unfold ParseOptionalFields.mday
    rw [PFN_digits2_ok d _ _ _ _ (by omega) (by omega) (by omega)]
    simp only []
    unfold ParseOptionalFields.hour
    rw [PFN_digits2_ok h _ _ _ _ (by omega) (by omega) (by omega)]
    simp only []
    unfold ParseOptionalFields.min
    rw [hq]
  · simp [fieldsOk, inRanges, fieldRanges] at hfs hrange
    obtain ⟨hl, hh⟩ := hrange
    subst hl hh
    simp only [Nat.cast_ofNat, Nat.cast_one, Nat.cast_zero] at hq
    simp only [fieldsText, List.append_assoc, List.nil_append, List.append_nil]
    unfold ParseOptionalFields
    rw [PFN_digits2_ok mo _ _ _ _ (by omega) (by omega) (by omega)]
    simp only []
    unfold ParseOptionalFields.mday
    rw [PFN_digits2_ok d _ _ _ _ (by omega) (by omega) (by omega)]
    simp only []
    unfold ParseOptionalFields.hour
    rw [PFN_digits2_ok h _ _ _ _ (by omega) (by omega) (by omega)]
    simp only []
    unfold ParseOptionalFields.min
    rw [PFN_digits2_ok mi _ _ _ _ (by omega) (by omega) (by omega)]
    simp only []
    unfold ParseOptionalFields.sec
    rw [hq]
  · simp [fieldRanges] at hrange

theorem parseFrom_bad_year (tg : tm → Int) (r : List Char)
    (hs : isSentinel (peek r) = false) (hbad : fieldGood 4 0 9999 r = false) :
    PdfDate.parseFrom tg r = (-1, false) := by
  obtain ⟨q, hq⟩ := PFN_bad_nat r 4 0 9999 (by decide) (by decide) hs hbad
  simp only [Nat.cast_ofNat, Nat.cast_zero] at hq
  unfold PdfDate.parseFrom
  rw [hq]

theorem parse_bad_year (tg : tm → Int) (mk : Bool) (r : List Char)
    (hs : isSentinel (peek r) = false) (hbad : fieldGood 4 0 9999 r = false)
    (hmk : mk = false → ∀ t, r ≠ 'D' :: ':' :: t) :
    PdfDate.parse tg ((if mk then ['D', ':'] else []) ++ r) = (-1, false) := by
  have hf := parseFrom_bad_year tg r hs hbad
  cases mk with
  | true =>
    simp only [if_true, List.cons_append, List.nil_append]
    unfold PdfDate.parse
    simpa using hf
  | false =>
    have hno := hmk rfl
    simp only [Bool.false_eq_true, if_false, List.nil_append]
    unfold PdfDate.parse
    rcases r with _ | ⟨c, _ | ⟨c1, rest1⟩⟩
    · exact hf
    · by_cases hD : c = 'D'
      · simp [hD]
      · simp only [if_neg hD]
        exact hf
    · by_cases hD : c = 'D'
      · have hc1 : c1 ≠ ':' := by
          intro hc
          exact hno rest1 (by rw [hD, hc])
        simp [hD, hc1]
      · simp only [if_neg hD]
        exact hf

theorem parse_bad_field (tg : tm → Int) (mk : Bool) (year : Nat) (fs : List Nat)
    (r : List Char) (lo hi : Nat) (hy : year ≤ 9999) (hfs : fieldsOk fs = true)
    (hrange : fieldRanges[fs.length]? = some (lo, hi))
    (hs : isSentinel (peek r) = false) (hbad : fieldGood 2 lo hi r = false) :
    PdfDate.parse tg (calendarText mk year fs ++ r) = (-1, false) := by
  have hb := ParseOptionalFields_bad year fs r lo hi hfs hrange hs hbad
  unfold calendarText
  rw [List.append_assoc, List.append_assoc, parse_marker, parseFrom_year tg year _ hy]
  rcases hres : ParseOptionalFields (fieldsText fs ++ r)
    { tmInit with tm_year := (year : Int) - 1900 } with ⟨b, q, t⟩
  rw [hres] at hb
  simp only at hb
  subst hb
  rfl

/-- C4: a present but malformed calendar field makes the whole date invalid,
whatever follows. First part: the year, at the start of the text or after the
`D:` marker, when its first character is not a sentinel and its four characters
are not four digits. Second part: the optional field after a well-formed year
and `fs.length` well-formed optional fields, when its first character is not a
sentinel and its two characters are not two digits with a value in the range
of that field. -/
theorem C4_malformed_field_rejected (tg : tm → Int) (N : Nat) :
    (∀ (mk : Bool) (r : List Char),
        isSentinel (peek r) = false → fieldGood 4 0 9999 r = false →
        (mk = false → ∀ t, r ≠ 'D' :: ':' :: t) →
        (PdfDate.ofString tg N
            (PdfString.ofText ((if mk then ['D', ':'] else []) ++ r))).m_bValid = false
        ∧ (PdfDate.ofString tg N
            (PdfString.ofText ((if mk then ['D', ':'] else []) ++ r))).m_time = -1)
    ∧ (∀ (mk : Bool) (year : Nat) (fs : List Nat) (r : List Char) (lo hi : Nat),
        year ≤ 9999 → fieldsOk fs = true → fieldRanges[fs.length]? = some (lo, hi) →
        isSentinel (peek r) = false → fieldGood 2 lo hi r = false →
        (PdfDate.ofString tg N
            (PdfString.ofText (calendarText mk year fs ++ r))).m_bValid = false
        ∧ (PdfDate.ofString tg N
            (PdfString.ofText (calendarText mk year fs ++ r))).m_time = -1) := by
  constructor
  · intro mk r hs hbad hmk
    rw [ofString_ofText, parse_bad_year tg mk r hs hbad hmk]
    exact ⟨rfl, rfl⟩
  · intro mk year fs r lo hi hy hfs hrange hs hbad
    rw [ofString_ofText, parse_bad_field tg mk year fs r lo hi hy hfs hrange hs hbad]
    exact ⟨rfl, rfl⟩

/-- C4 (witness): `D:20X4` has a malformed year; `D:20241305` has month 13 and
`D:202401011260Z00`, after year, month, day and hour, has minute 60. -/
theorem C4_witness :
    ((PdfDate.ofString timegm 26 (PdfString.ofText "D:20X4".toList)).m_bValid = false
      ∧ (PdfDate.ofString timegm 26 (PdfString.ofText "D:20X4".toList)).m_time = -1)
    ∧ ((PdfDate.ofString timegm 26 (PdfString.ofText "D:20241305".toList)).m_bValid = false
      ∧ (PdfDate.ofString timegm 26 (PdfString.ofText "D:20241305".toList)).m_time = -1)
    ∧ ((PdfDate.ofString timegm 26
          (PdfString.ofText "D:202401011260Z00".toList)).m_bValid = false
      ∧ (PdfDate.ofString timegm 26
          (PdfString.ofText "D:202401011260Z00".toList)).m_time = -1) :=
  ⟨(C4_malformed_field_rejected timegm 26).1 true "20X4".toList
      (by decide) (by decide) (by simp),
    (C4_malformed_field_rejected timegm 26).2 true 2024 [] "1305".toList 1 12
      (by decide) (by decide) (by decide) (by decide) (by decide),
    (C4_malformed_field_rejected timegm 26).2 true 2024 [1, 1, 12] "60Z00".toList 0 59
      (by decide) (by decide) (by decide) (by decide) (by decide)⟩

/-! ## The grammar of accepted strings -/

theorem twoDigits_digits2 (lo hi v : Nat) (hlo : lo ≤ v) (hhi : v ≤ hi) (hv : v < 100) :
    twoDigits lo hi (digitChar (v / 10)) (digitChar v) = true := by
  have hd : decimalValue [digitChar (v / 10), digitChar v] = v := decimalValue_digits2 v hv
  unfold twoDigits
  rw [hd, isdigit_digitChar, isdigit_digitChar]
  simp [hlo, hhi]

theorem codeZone_zoneText (z : Option Zone) (hz : ∀ z0, z = some z0 → z0.ok = true) :
    codeZone (zoneText z) = true := by
  cases z with
  | none => rfl
  | some z0 =>
    obtain ⟨hsign, hh, hm⟩ := zone_sign_cases z0 (hz z0 rfl)
    rcases z0 with ⟨sg, zh, zmin⟩
    simp only at hsign hh hm
    have hs : (decide (sg = '+') || decide (sg = '-') || decide (sg = 'Z')) = true := by
      simp only [Bool.or_eq_true, decide_eq_true_eq]
      tauto
    have h1 := twoDigits_digits2 0 59 zh (by omega) hh (by omega)
    cases zmin with
    | none =>
      simp only [zoneText, digits2, List.append_nil, codeZone, hs, h1, Bool.and_self]
    | some m =>
      have h2 := twoDigits_digits2 0 59 m (by omega) (hm m rfl) (by have := hm m rfl; omega)
      simp only [zoneText, digits2, List.cons_append, List.nil_append, codeZone, hs, h1, h2,
        decide_True, Bool.and_self]

theorem matchFields_fieldsText (rs : List (Nat × Nat)) (fs : List Nat) (z : Option Zone)
    (hrs : ∀ r ∈ rs, r.2 < 100) (hfs : inRanges rs fs = true)
    (hz : ∀ z0, z = some z0 → z0.ok = true) :
    matchFields codeZone rs (fieldsText fs ++ zoneText z) = true := by
  induction rs generalizing fs with
  | nil =>
    cases fs with
    | nil => simpa [matchFields, fieldsText] using codeZone_zoneText z hz
    | cons v vs => simp [inRanges] at hfs
  | cons r rs ih =>
    obtain ⟨lo, hi⟩ := r
    cases fs with
    | nil =>
      simp only [matchFields, fieldsText, List.nil_append, codeZone_zoneText z hz,
        Bool.true_or]
    | cons v vs =>
      simp only [inRanges, Bool.and_eq_true, decide_eq_true_eq] at hfs
      have hhi : hi < 100 := hrs (lo, hi) (by simp)
      have h1 := twoDigits_digits2 lo hi v hfs.1.1 hfs.1.2 (by omega)
      have h2 := ih vs (fun r hr => hrs r (by simp [hr])) hfs.2
      simp only [matchFields, fieldsText, digits2, List.cons_append, List.nil_append,
        List.append_assoc, h1, h2, Bool.and_self, Bool.or_true]

theorem matchDate_toText (d : DateText) (hd : d.ok = true) :
    matchDate codeZone d.toText = true := by
  obtain ⟨hy, hfs, hz⟩ := DateText_ok_parts d hd
  have hm := matchFields_fieldsText fieldRanges d.fields d.zone (by decide) hfs hz
  have hyear : matchYear codeZone (digits4 d.year ++ (fieldsText d.fields ++ zoneText d.zone))
      = true := by
    simp only [digits4, List.cons_append, List.nil_append, matchYear, isdigit_digitChar, hm,
      Bool.and_self]
  unfold DateText.toText calendarText matchDate
  cases d.marker with
  | true =>
    simp only [if_true, List.cons_append, List.nil_append, List.append_assoc, hyear,
      decide_True, Bool.and_self, Bool.or_true]
  | false =>
    simp only [Bool.false_eq_true, if_false, List.nil_append, List.append_assoc, hyear,
      Bool.true_or]

/-- C5 (counterexample): `D:20240101120000Z00` is reported valid, although its zone
section is neither `Z` alone nor a sign with offsets, so that the grammar as the
specification words it does not match it. -/
theorem C5_counterexample :
    (PdfDate.ofString timegm 26 (PdfString.ofText "D:20240101120000Z00".toList)).m_bValid
        = true
    ∧ matchDate specZone "D:20240101120000Z00".toList = false := by
  decide

/-- C5 (amended): every string that the constructor reports valid matches the date
grammar whose zone is one of `+`, `-`, `Z` followed by a two-digit hour offset
and an optional quoted two-digit minute offset: an optional `D:`, a four-digit
year, then in order the optional two-digit month, day, hour, minute and second
in their ranges, then the optional zone, and nothing after it. -/
theorem C5_valid_matches_grammar (tg : tm → Int) (N : Nat) (sDate : PdfString)
    (h : (PdfDate.ofString tg N sDate).m_bValid = true) :
    ∃ s, sDate.GetString = some s ∧ matchDate codeZone (cstr s) = true := by
  obtain ⟨_, s, hs, hp⟩ := ofString_valid_inv tg N sDate h
  obtain ⟨d, hd, hc, _, _⟩ := parse_inv tg s _ hp
  exact ⟨s, hs, by rw [hc]; exact matchDate_toText d hd⟩

/-- C5 (witness): `D:20240101120000-05'00'` is valid and matches the grammar. -/
theorem C5_witness :
    ∃ s, (PdfString.ofText "D:20240101120000-05'00'".toList).GetString = some s
      ∧ matchDate codeZone (cstr s) = true :=
  C5_valid_matches_grammar timegm 26 (PdfString.ofText "D:20240101120000-05'00'".toList)
    (by decide)

/-! ## Trailing text -/

theorem ParseZoneShift_unrecognised (tg : tm → Int) (c : Char) (rest : List Char) (t : tm)
    (hc : isSentinel c = false) : (ParseZoneShift tg (c :: rest) t).1 = -1 := by
  have h4 : ¬ (c = NUL ∨ c = '+' ∨ c = '-' ∨ c = 'Z') := by
    rw [← isSentinel_iff, hc]
    simp
  have h0 : c ≠ NUL := fun h => h4 (Or.inl h)
  have h1 : c ≠ '+' := fun h => h4 (Or.inr (Or.inl h))
  have h2 : c ≠ '-' := fun h => h4 (Or.inr (Or.inr (Or.inl h)))
  have h3 : c ≠ 'Z' := fun h => h4 (Or.inr (Or.inr (Or.inr h)))
  simp only [ParseZoneShift, if_neg h0, if_neg h1, if_neg h2, if_neg h3]

theorem finish_trailing (tg : tm → Int) (c : Char) (rest : List Char) (t : tm)
    (sh zh zm : Int) (hc : c ≠ NUL) :
    (ParseZoneShift.finish tg (c :: rest) t sh zh zm).1 = -1 := by
  unfold ParseZoneShift.finish
  have h : peek (c :: rest) ≠ NUL := by simpa [peek] using hc
  rw [if_pos h]

theorem ParseZoneShift_complete_trailing (tg : tm → Int) (sg : Char) (zh m : Nat) (c : Char)
    (rest : List Char) (t : tm) (hzh : zh < 100) (hm : m < 100) (h0 : sg ≠ NUL)
    (hc : c ≠ NUL) :
    (ParseZoneShift tg
      (sg :: (digits2 zh ++ QUOTE :: (digits2 m ++ QUOTE :: c :: rest))) t).1 = -1 := by
  unfold ParseZoneShift
  simp only [if_neg h0]
  split
  · rfl
  · rename_i sh _
    rw [PFN_digits2 zh _ 0 59 0 hzh]
    by_cases hr : (0 : Int) ≤ (zh : Int) ∧ (zh : Int) ≤ 59
    · simp only [if_pos hr, if_true]
      rw [PFN_digits2 m _ 0 59 0 hm]
      by_cases hr2 : (0 : Int) ≤ (m : Int) ∧ (m : Int) ≤ 59
      · simp only [if_pos hr2, if_true]
        exact finish_trailing tg c rest t _ _ _ hc
      · simp only [if_neg hr2]
    · simp only [if_neg hr]

/-- C6: trailing text makes the date invalid. First part: after a well-formed
year and all five optional fields, a character that is neither the terminator
nor `+`, `-`, `Z` gives an invalid date, whatever follows it. Second part:
after a well-formed calendar part and a complete zone section (a sentinel
`+`, `-` or `Z`, two hour digits, and two minute digits between quotes), one
more character before the terminator gives an invalid date. -/
theorem C6_trailing_text_rejected (tg : tm → Int) (N : Nat) :
    (∀ (mk : Bool) (year : Nat) (fs : List Nat) (c : Char) (rest : List Char),
        year ≤ 9999 → fieldsOk fs = true → fs.length = 5 → isSentinel c = false →
        (PdfDate.ofString tg N
            (PdfString.ofText (calendarText mk year fs ++ c :: rest))).m_bValid = false
        ∧ (PdfDate.ofString tg N
            (PdfString.ofText (calendarText mk year fs ++ c :: rest))).m_time = -1)
    ∧ (∀ (mk : Bool) (year : Nat) (fs : List Nat) (sg : Char) (zh m : Nat) (c : Char)
        (rest : List Char),
        year ≤ 9999 → fieldsOk fs = true → (sg = '+' ∨ sg = '-' ∨ sg = 'Z') →
        zh < 100 → m < 100 → c ≠ NUL →
        (PdfDate.ofString tg N
            (PdfString.ofText (calendarText mk year fs
              ++ (sg :: (digits2 zh ++ QUOTE :: (digits2 m ++ QUOTE :: c :: rest)))))).m_bValid
          = false
        ∧ (PdfDate.ofString tg N
            (PdfString.ofText (calendarText mk year fs
              ++ (sg :: (digits2 zh ++ QUOTE :: (digits2 m ++ QUOTE :: c :: rest)))))).m_time
          = -1) := by
  constructor
  · intro mk year fs c rest hy hfs hlen hc
    rw [ofString_ofText, parse_calendarText tg mk year fs _ hy hfs (fun h => by omega),
      ParseZoneShift_unrecognised tg c rest _ hc]
    exact ⟨rfl, rfl⟩
  · intro mk year fs sg zh m c rest hy hfs hsg hzh hm hc
    have hs : isSentinel (peek (sg :: (digits2 zh
        ++ QUOTE :: (digits2 m ++ QUOTE :: c :: rest)))) = true := by
      simp only [peek, List.headD_cons]
      rw [isSentinel_iff]
      exact Or.inr hsg
    have h0 : sg ≠ NUL := by
      rcases hsg with h | h | h <;> subst h <;> decide
    rw [ofString_ofText, parse_calendarText tg mk year fs _ hy hfs (fun _ => hs),
      ParseZoneShift_complete_trailing tg sg zh m c rest _ hzh hm h0 hc]
    exact ⟨rfl, rfl⟩

/-- C6 (witness): `D:20240101000000X`, and `D:20240101000000+05'30'0`. -/
theorem C6_witness :
    ((PdfDate.ofString timegm 26 (PdfString.ofText "D:20240101000000X".toList)).m_bValid
        = false
      ∧ (PdfDate.ofString timegm 26 (PdfString.ofText "D:20240101000000X".toList)).m_time
        = -1)
    ∧ ((PdfDate.ofString timegm 26
          (PdfString.ofText "D:20240101000000+05'30'0".toList)).m_bValid = false
      ∧ (PdfDate.ofString timegm 26
          (PdfString.ofText "D:20240101000000+05'30'0".toList)).m_time = -1) :=
  ⟨(C6_trailing_text_rejected timegm 26).1 true 2024 [1, 1, 0, 0, 0] 'X' []
      (by decide) (by decide) (by decide) (by decide),
    (C6_trailing_text_rejected timegm 26).2 true 2024 [1, 1, 0, 0, 0] '+' 5 30 '0' []
      (by decide) (by decide) (by decide) (by decide) (by decide) (by decide)⟩

/-! ## The mandatory year -/

theorem parseFrom_no_year (tg : tm → Int) (r : List Char)
    (h : startsWithFourDigits r = false) : PdfDate.parseFrom tg r = (-1, false) := by
  have hnd : ¬ (4 ≤ r.length ∧ ∀ c ∈ r.take 4, isdigit c = true) := by
    intro hh
    have : startsWithFourDigits r = true := by
      unfold startsWithFourDigits
      simp only [Bool.and_eq_true, decide_eq_true_eq, List.all_eq_true]
      exact hh
    rw [h] at this
    exact Bool.false_ne_true this
  unfold PdfDate.parseFrom
  rcases PFN_tag_cases r 4 0 9999 tmInit.tm_year (by decide) (by decide) with h1 | h1 | h1
  · rw [h1.2]
  · exact absurd h1.2.1 hnd
  · rcases hres : ParseFixLenNumber r 4 0 9999 tmInit.tm_year with ⟨tag, q, v⟩
    rw [hres] at h1
    have ht : tag = Error := h1.2.2.1
    subst ht
    rfl

theorem parse_no_year (tg : tm → Int) (s : List Char)
    (h : startsWithFourDigits (stripMarker s) = false) : PdfDate.parse tg s = (-1, false) := by
  unfold PdfDate.parse
  rcases s with _ | ⟨c, _ | ⟨c1, rest1⟩⟩
  · exact parseFrom_no_year tg [] h
  · by_cases hD : c = 'D'
    · simp [hD]
    · simp only [if_neg hD]
      exact parseFrom_no_year tg [c] h
  · by_cases hD : c = 'D'
    · by_cases hc : c1 = ':'
      · have hst : stripMarker (c :: c1 :: rest1) = rest1 := by
          simp [stripMarker, hD, hc]
        rw [hst] at h
        simp only [if_pos hD]
        have hnn : ¬ (c1 ≠ ':') := by simpa using hc
        rw [if_neg hnn]
        exact parseFrom_no_year tg rest1 h
      · simp [hD, hc]
    · have hst : stripMarker (c :: c1 :: rest1) = c :: c1 :: rest1 := by
        simp [stripMarker, hD]
      rw [hst] at h
      simp only [if_neg hD]
      exact parseFrom_no_year tg _ h

/-- C7: the year is mandatory. When the string collaborator is not valid, or has no
character data, or its text after an optional leading `D:` does not begin with
four decimal digits (the empty text included), the date is invalid with
timestamp -1. This holds for every conversion function `tg`: the result does
not depend on the calendar conversion. -/
theorem C7_year_mandatory (tg : tm → Int) (N : Nat) (sDate : PdfString)
    (h : sDate.IsValid = false ∨ sDate.GetString = none
      ∨ ∃ s, sDate.GetString = some s ∧ startsWithFourDigits (stripMarker s) = false) :
    (PdfDate.ofString tg N sDate).m_bValid = false
      ∧ (PdfDate.ofString tg N sDate).m_time = -1 := by
  unfold PdfDate.ofString
  cases hv : sDate.IsValid with
  | false => exact ⟨rfl, rfl⟩
  | true =>
    simp only [Bool.not_true, Bool.false_eq_true, if_false]
    rcases h with h | h | ⟨s, hs, hbad⟩
    · rw [hv] at h
      exact absurd h (by decide)
    · rw [h]
      exact ⟨rfl, rfl⟩
    · rw [hs]
      simp only [parse_no_year tg s hbad]
      simp

/-- C7 (witness): the empty text, an invalid collaborator, and `D2024`; the
conversion function of the last one would return 0 if it were consulted. -/
theorem C7_witness :
    ((PdfDate.ofString timegm 26 (PdfString.ofText [])).m_bValid = false
      ∧ (PdfDate.ofString timegm 26 (PdfString.ofText [])).m_time = -1)
    ∧ ((PdfDate.ofString timegm 26 { IsValid := false, GetString := none }).m_bValid = false
      ∧ (PdfDate.ofString timegm 26 { IsValid := false, GetString := none }).m_time = -1)
    ∧ ((PdfDate.ofString (fun _ => 0) 26 (PdfString.ofText "D2024".toList)).m_bValid = false
      ∧ (PdfDate.ofString (fun _ => 0) 26 (PdfString.ofText "D2024".toList)).m_time = -1) :=
  ⟨C7_year_mandatory timegm 26 (PdfString.ofText [])
      (Or.inr (Or.inr ⟨[], rfl, by decide⟩)),
    C7_year_mandatory timegm 26 { IsValid := false, GetString := none } (Or.inl rfl),
    C7_year_mandatory (fun _ => 0) 26 (PdfString.ofText "D2024".toList)
      (Or.inr (Or.inr ⟨"D2024".toList, rfl, by decide⟩))⟩

/-! ## The validity flag -/

theorem parseFrom_flag (tg : tm → Int) (p : List Char) :
    (PdfDate.parseFrom tg p).2 = true ↔ (PdfDate.parseFrom tg p).1 ≠ -1 := by
  unfold PdfDate.parseFrom
  split
  · simp only []
    generalize ParseOptionalFields _ _ = res
    rcases res with ⟨b, q, t⟩
    cases b <;> simp
  · simp

theorem parse_flag (tg : tm → Int) (s : List Char) :
    (PdfDate.parse tg s).2 = true ↔ (PdfDate.parse tg s).1 ≠ -1 := by
  unfold PdfDate.parse
  split
  · split
    · split
      · split
        · simp
        · exact parseFrom_flag tg _
      · simp
    · exact parseFrom_flag tg _
  · exact parseFrom_flag tg _

/-- C8: for the constructor from a string, on every input and with every
conversion function, the validity flag is true exactly when the stored
timestamp is not -1. -/
theorem C8_valid_iff_not_sentinel (tg : tm → Int) (N : Nat) (sDate : PdfString) :
    (PdfDate.ofString tg N sDate).m_bValid = true
      ↔ (PdfDate.ofString tg N sDate).m_time ≠ -1 := by
  unfold PdfDate.ofString
  cases sDate.IsValid with
  | false => simp
  | true =>
    cases sDate.GetString with
    | none => simp
    | some s =>
      simp only [Bool.not_true, Bool.false_eq_true, if_false]
      exact parse_flag tg s

/-! ## The contract of ParseFixLenNumber -/

/-- C10: the contract of `ParseFixLenNumber(in, width, min, max)`, for every width
at which the `int` accumulator cannot overflow, 1 to 9; every call of the
program passes width 2 or 4. The function returns `Ok` exactly when the next
`width` characters are all decimal digits and their decimal value lies in
`min..max`, and then the value is that decimal value and the cursor has
advanced by exactly `width`; it returns `Missing` exactly when the next
character is the terminator or one of `+`, `-`, `Z`; and it returns `Error`
in every other case. -/
theorem C10_ParseFixLenNumber_contract (inp : List Char) (w : Nat) (lo hi r : Int)
    (hw : 1 ≤ w) (hw9 : w ≤ 9) :
    ((ParseFixLenNumber inp w lo hi r).1 = Ok
        ↔ (w ≤ inp.length ∧ (∀ c ∈ inp.take w, isdigit c = true)
            ∧ lo ≤ (decimalValue (inp.take w) : Int)
            ∧ (decimalValue (inp.take w) : Int) ≤ hi))
    ∧ ((ParseFixLenNumber inp w lo hi r).1 = Ok
        → ParseFixLenNumber inp w lo hi r
            = (Ok, inp.drop w, (decimalValue (inp.take w) : Int)))
    ∧ ((ParseFixLenNumber inp w lo hi r).1 = Missing ↔ isSentinel (peek inp) = true)
    ∧ ((ParseFixLenNumber inp w lo hi r).1 = Error
        ↔ (isSentinel (peek inp) = false
            ∧ ¬ (w ≤ inp.length ∧ (∀ c ∈ inp.take w, isdigit c = true)
                ∧ lo ≤ (decimalValue (inp.take w) : Int)
                ∧ (decimalValue (inp.take w) : Int) ≤ hi))) := by
  rcases PFN_tag_cases inp w lo hi r hw hw9 with h | h | h
  · obtain ⟨hs, he⟩ := h
    have hnd : ¬ (w ≤ inp.length ∧ (∀ c ∈ inp.take w, isdigit c = true)
        ∧ lo ≤ (decimalValue (inp.take w) : Int)
        ∧ (decimalValue (inp.take w) : Int) ≤ hi) := by
      rintro ⟨hlen, hd, _⟩
      cases inp with
      | nil => simp at hlen; omega
      | cons c rest =>
        have hc : isdigit c = true := by
          apply hd
          cases w with
          | zero => omega
          | succ n => simp
        have := isSentinel_of_isdigit c hc
        simp only [peek, List.headD_cons] at hs
        rw [hs] at this
        exact Bool.noConfusion this
    rw [he]
    simp [hs, hnd]
  · obtain ⟨hs, hdig, hr, he⟩ := h
    have hcond : w ≤ inp.length ∧ (∀ c ∈ inp.take w, isdigit c = true)
        ∧ lo ≤ (decimalValue (inp.take w) : Int)
        ∧ (decimalValue (inp.take w) : Int) ≤ hi := ⟨hdig.1, hdig.2, hr.1, hr.2⟩
    rw [he]
    refine ⟨⟨fun _ => hcond, fun _ => rfl⟩, fun _ => rfl, ⟨fun h => ?_, fun h => ?_⟩,
      ⟨fun h => ?_, fun h => ?_⟩⟩
    · simp at h
    · rw [hs] at h
      exact absurd h (by decide)
    · simp at h
    · exact absurd hcond h.2
  · obtain ⟨hs, hbad, hE, _⟩ := h
    have hbad2 : ¬ (w ≤ inp.length ∧ (∀ c ∈ inp.take w, isdigit c = true)
        ∧ lo ≤ (decimalValue (inp.take w) : Int)
        ∧ (decimalValue (inp.take w) : Int) ≤ hi) := by
      rintro ⟨h1, h2, h3, h4⟩
      exact hbad ⟨⟨h1, h2⟩, h3, h4⟩
    rw [hE]
    simp [hs, hbad2]

/-- C10 (witness): the two widths of the program, the month scan of width 2 on
`12Z`, which returns `Ok` with value 12, and the year scan of width 4 on
`2024+05`, which returns `Ok` with value 2024. -/
theorem C10_witness :
    (((ParseFixLenNumber "12Z".toList 2 1 12 0).1 = Ok
        ↔ (2 ≤ "12Z".toList.length ∧ (∀ c ∈ "12Z".toList.take 2, isdigit c = true)
            ∧ (1 : Int) ≤ (decimalValue ("12Z".toList.take 2) : Int)
            ∧ (decimalValue ("12Z".toList.take 2) : Int) ≤ 12))
    ∧ ((ParseFixLenNumber "12Z".toList 2 1 12 0).1 = Ok
        → ParseFixLenNumber "12Z".toList 2 1 12 0
            = (Ok, "12Z".toList.drop 2, (decimalValue ("12Z".toList.take 2) : Int)))
    ∧ ((ParseFixLenNumber "12Z".toList 2 1 12 0).1 = Missing
        ↔ isSentinel (peek "12Z".toList) = true)
    ∧ ((ParseFixLenNumber "12Z".toList 2 1 12 0).1 = Error
        ↔ (isSentinel (peek "12Z".toList) = false
            ∧ ¬ (2 ≤ "12Z".toList.length ∧ (∀ c ∈ "12Z".toList.take 2, isdigit c = true)
                ∧ (1 : Int) ≤ (decimalValue ("12Z".toList.take 2) : Int)
                ∧ (decimalValue ("12Z".toList.take 2) : Int) ≤ 12))))
    ∧ (((ParseFixLenNumber "2024+05".toList 4 0 9999 0).1 = Ok
        ↔ (4 ≤ "2024+05".toList.length ∧ (∀ c ∈ "2024+05".toList.take 4, isdigit c = true)
            ∧ (0 : Int) ≤ (decimalValue ("2024+05".toList.take 4) : Int)
            ∧ (decimalValue ("2024+05".toList.take 4) : Int) ≤ 9999))
    ∧ ((ParseFixLenNumber "2024+05".toList 4 0 9999 0).1 = Ok
        → ParseFixLenNumber "2024+05".toList 4 0 9999 0
            = (Ok, "2024+05".toList.drop 4, (decimalValue ("2024+05".toList.take 4) : Int)))
    ∧ ((ParseFixLenNumber "2024+05".toList 4 0 9999 0).1 = Missing
        ↔ isSentinel (peek "2024+05".toList) = true)
    ∧ ((ParseFixLenNumber "2024+05".toList 4 0 9999 0).1 = Error
        ↔ (isSentinel (peek "2024+05".toList) = false
            ∧ ¬ (4 ≤ "2024+05".toList.length ∧ (∀ c ∈ "2024+05".toList.take 4, isdigit c = true)
                ∧ (0 : Int) ≤ (decimalValue ("2024+05".toList.take 4) : Int)
                ∧ (decimalValue ("2024+05".toList.take 4) : Int) ≤ 9999))))
    ∧ ParseFixLenNumber "12Z".toList 2 1 12 0 = (Ok, "Z".toList, 12)
    ∧ ParseFixLenNumber "2024+05".toList 4 0 9999 0 = (Ok, "+05".toList, 2024)
    ∧ (ParseFixLenNumber "+05".toList 2 0 59 0).1 = Missing
    ∧ (ParseFixLenNumber "13".toList 2 1 12 0).1 = Error :=
  ⟨C10_ParseFixLenNumber_contract "12Z".toList 2 1 12 0 (by decide) (by decide),
    C10_ParseFixLenNumber_contract "2024+05".toList 4 0 9999 0 (by decide) (by decide),
    by decide, by decide, by decide, by decide⟩

/-! ## Rendering and parsing back -/

/-- C11: `ParseFixLenNumber` writes its output number only on success. When it
returns `Missing`, the cursor and the output number are unchanged; when it
returns `Error`, the output number is unchanged. -/
theorem C11_output_written_only_on_success (inp : List Char) (w : Nat) (lo hi r : Int) :
    ((ParseFixLenNumber inp w lo hi r).1 = Missing
        → ParseFixLenNumber inp w lo hi r = (Missing, inp, r))
    ∧ ((ParseFixLenNumber inp w lo hi r).1 = Error
        → (ParseFixLenNumber inp w lo hi r).2.2 = r) := by
  unfold ParseFixLenNumber
  split_ifs with hs
  · exact ⟨fun _ => rfl, fun _ => rfl⟩
  · rcases ParseFixLenNumber.loop w inp 0 with ⟨b, cur, v⟩
    cases b with
    | false => exact ⟨fun h => by simp at h, fun _ => rfl⟩
    | true =>
      simp only []
      split_ifs with hr
      · exact ⟨fun h => by simp at h, fun _ => rfl⟩
      · exact ⟨fun h => by simp at h, fun h => by simp at h⟩

/-- C11 (witness): the month scan at a zone sentinel, and on the malformed text
`1X`, with the output number holding 7 before the call. -/
theorem C11_witness :
    (((ParseFixLenNumber "+05".toList 2 1 12 7).1 = Missing
        → ParseFixLenNumber "+05".toList 2 1 12 7 = (Missing, "+05".toList, 7))
      ∧ ((ParseFixLenNumber "+05".toList 2 1 12 7).1 = Error
        → (ParseFixLenNumber "+05".toList 2 1 12 7).2.2 = 7))
    ∧ (((ParseFixLenNumber "1X".toList 2 1 12 7).1 = Missing
        → ParseFixLenNumber "1X".toList 2 1 12 7 = (Missing, "1X".toList, 7))
      ∧ ((ParseFixLenNumber "1X".toList 2 1 12 7).1 = Error
        → (ParseFixLenNumber "1X".toList 2 1 12 7).2.2 = 7))
    ∧ (ParseFixLenNumber "+05".toList 2 1 12 7).1 = Missing
    ∧ (ParseFixLenNumber "1X".toList 2 1 12 7).1 = Error :=
  ⟨C11_output_written_only_on_success "+05".toList 2 1 12 7,
    C11_output_written_only_on_success "1X".toList 2 1 12 7, by decide, by decide⟩

/-! ## The marker -/

theorem parse_of_not_D (tg : tm → Int) (s : List Char) (h : peek s ≠ 'D') :
    PdfDate.parse tg s = PdfDate.parseFrom tg s := by
  unfold PdfDate.parse
  cases s with
  | nil => rfl
  | cons c rest =>
    have hc : c ≠ 'D' := by simpa [peek] using h
    simp only [if_neg hc]

theorem parse_D_colon (tg : tm → Int) (s : List Char) :
    PdfDate.parse tg ('D' :: ':' :: s) = PdfDate.parseFrom tg s := by
  unfold PdfDate.parse
  simp

/-- C12: the marker `D:` is optional. For every text `s` that does not begin with
the character `D`, the constructor gives the same validity flag and the same
timestamp for `D:` followed by `s` as for `s`. -/
theorem C12_marker_optional (tg : tm → Int) (N : Nat) (s : List Char) (h : peek s ≠ 'D') :
    (PdfDate.ofString tg N (PdfString.ofText ('D' :: ':' :: s))).m_bValid
        = (PdfDate.ofString tg N (PdfString.ofText s)).m_bValid
    ∧ (PdfDate.ofString tg N (PdfString.ofText ('D' :: ':' :: s))).m_time
        = (PdfDate.ofString tg N (PdfString.ofText s)).m_time := by
  simp only [ofString_ofText, parse_D_colon, parse_of_not_D tg s h, and_self]

/-- C12 (witness): `20240101120000+05'30'` with and without the marker. -/
theorem C12_witness :
    ((PdfDate.ofString timegm 26
          (PdfString.ofText ('D' :: ':' :: "20240101120000+05'30'".toList))).m_bValid
        = (PdfDate.ofString timegm 26
            (PdfString.ofText "20240101120000+05'30'".toList)).m_bValid
      ∧ (PdfDate.ofString timegm 26
          (PdfString.ofText ('D' :: ':' :: "20240101120000+05'30'".toList))).m_time
        = (PdfDate.ofString timegm 26
            (PdfString.ofText "20240101120000+05'30'".toList)).m_time)
    ∧ (PdfDate.ofString timegm 26
          (PdfString.ofText "20240101120000+05'30'".toList)).m_time = 1704090600 :=
  ⟨C12_marker_optional timegm 26 "20240101120000+05'30'".toList (by decide), by decide⟩

/-- C18: a leading `D` that is not immediately followed by `:` makes the date
invalid with timestamp -1, whatever the rest of the text is (the text `D`
alone included, where the next character is the terminator). -/
theorem C18_D_without_colon (tg : tm → Int) (N : Nat) (rest : List Char)
    (h : peek rest ≠ ':') :
    (PdfDate.ofString tg N (PdfString.ofText ('D' :: rest))).m_bValid = false
    ∧ (PdfDate.ofString tg N (PdfString.ofText ('D' :: rest))).m_time = -1 := by
  rw [ofString_ofText]
  unfold PdfDate.parse
  cases rest with
  | nil => exact ⟨rfl, rfl⟩
  | cons c1 rest1 =>
    have hc : c1 ≠ ':' := by simpa [peek] using h
    simp only [if_true, if_pos hc, and_self]

/-- C18 (witness): the texts `D` and `D20240101`. -/
theorem C18_witness :
    ((PdfDate.ofString timegm 26 (PdfString.ofText "D".toList)).m_bValid = false
      ∧ (PdfDate.ofString timegm 26 (PdfString.ofText "D".toList)).m_time = -1)
    ∧ ((PdfDate.ofString timegm 26 (PdfString.ofText "D20240101".toList)).m_bValid = false
      ∧ (PdfDate.ofString timegm 26 (PdfString.ofText "D20240101".toList)).m_time = -1) :=
  ⟨C18_D_without_colon timegm 26 [] (by decide),
    C18_D_without_colon timegm 26 "20240101".toList (by decide)⟩

/-! ## The zone `Z` with offset digits, and the sentinel value -/

theorem parse_with_zone (tg : tm → Int) (mk : Bool) (year : Nat) (fs : List Nat)
    (z : Option Zone) (hy : year ≤ 9999) (hfs : fieldsOk fs = true)
    (hz : ∀ z0, z = some z0 → z0.ok = true) :
    PdfDate.parse tg (calendarText mk year fs ++ zoneText z)
      = ((if tg (civilTm year fs) = -1 then -1 else tg (civilTm year fs) - zoneOffset z),
         decide ((if tg (civilTm year fs) = -1 then -1
                  else tg (civilTm year fs) - zoneOffset z) ≠ -1)) := by
  have hd : (⟨mk, year, fs, z⟩ : DateText).ok = true := by
    unfold DateText.ok
    simp only [hy, hfs, decide_True, Bool.and_self, Bool.true_and]
    cases z with
    | none => rfl
    | some z0 => exact hz z0 rfl
  exact parse_toText tg ⟨mk, year, fs, z⟩ hd

/-- C15: with the sentinel `Z` the offset digits never shift the result. After
well-formed calendar fields, the texts `Z hh` and `Z hh ' mm '` with `hh` and
`mm` in 00..59 give the same validity flag and the same timestamp as the
calendar fields without any zone section. -/
theorem C15_Z_offsets_do_not_shift (tg : tm → Int) (N : Nat) (mk : Bool) (year : Nat)
    (fs : List Nat) (zh zm : Nat) (hy : year ≤ 9999) (hfs : fieldsOk fs = true)
    (hzh : zh ≤ 59) (hzm : zm ≤ 59) :
    ((PdfDate.ofString tg N
        (PdfString.ofText (calendarText mk year fs ++ 'Z' :: digits2 zh))).m_bValid
      = (PdfDate.ofString tg N (PdfString.ofText (calendarText mk year fs))).m_bValid
    ∧ (PdfDate.ofString tg N
        (PdfString.ofText (calendarText mk year fs ++ 'Z' :: digits2 zh))).m_time
      = (PdfDate.ofString tg N (PdfString.ofText (calendarText mk year fs))).m_time)
    ∧ ((PdfDate.ofString tg N
        (PdfString.ofText (calendarText mk year fs
          ++ 'Z' :: (digits2 zh ++ QUOTE :: (digits2 zm ++ [QUOTE]))))).m_bValid
      = (PdfDate.ofString tg N (PdfString.ofText (calendarText mk year fs))).m_bValid
    ∧ (PdfDate.ofString tg N
        (PdfString.ofText (calendarText mk year fs
          ++ 'Z' :: (digits2 zh ++ QUOTE :: (digits2 zm ++ [QUOTE]))))).m_time
      = (PdfDate.ofString tg N (PdfString.ofText (calendarText mk year fs))).m_time) := by
  have h0 := parse_with_zone tg mk year fs none hy hfs (by simp)
  have h1 := parse_with_zone tg mk year fs (some ⟨'Z', zh, none⟩) hy hfs (by
    intro z0 hz0
    cases hz0
    simp [Zone.ok, hzh])
  have h2 := parse_with_zone tg mk year fs (some ⟨'Z', zh, some zm⟩) hy hfs (by
    intro z0 hz0
    cases hz0
    simp [Zone.ok, hzh, hzm])
  have hZ : ('Z' : Char) ≠ '+' ∧ ('Z' : Char) ≠ '-' := by decide
  simp only [zoneText, List.append_nil, zoneOffset, if_neg hZ.1, if_neg hZ.2] at h0 h1 h2
  simp only [ofString_ofText, h0, h1, h2, and_self]

/-- C15 (witness): `D:20240101120000`, `D:20240101120000Z05` and
`D:20240101120000Z05'30'` all give 1704110400. -/
theorem C15_witness :
    (((PdfDate.ofString timegm 26
        (PdfString.ofText (calendarText true 2024 [1, 1, 12, 0, 0]
          ++ 'Z' :: digits2 5))).m_bValid
      = (PdfDate.ofString timegm 26
          (PdfString.ofText (calendarText true 2024 [1, 1, 12, 0, 0]))).m_bValid
    ∧ (PdfDate.ofString timegm 26
        (PdfString.ofText (calendarText true 2024 [1, 1, 12, 0, 0]
          ++ 'Z' :: digits2 5))).m_time
      = (PdfDate.ofString timegm 26
          (PdfString.ofText (calendarText true 2024 [1, 1, 12, 0, 0]))).m_time)
    ∧ ((PdfDate.ofString timegm 26
        (PdfString.ofText (calendarText true 2024 [1, 1, 12, 0, 0]
          ++ 'Z' :: (digits2 5 ++ QUOTE :: (digits2 30 ++ [QUOTE]))))).m_bValid
      = (PdfDate.ofString timegm 26
          (PdfString.ofText (calendarText true 2024 [1, 1, 12, 0, 0]))).m_bValid
    ∧ (PdfDate.ofString timegm 26
        (PdfString.ofText (calendarText true 2024 [1, 1, 12, 0, 0]
          ++ 'Z' :: (digits2 5 ++ QUOTE :: (digits2 30 ++ [QUOTE]))))).m_time
      = (PdfDate.ofString timegm 26
          (PdfString.ofText (calendarText true 2024 [1, 1, 12, 0, 0]))).m_time))
    ∧ calendarText true 2024 [1, 1, 12, 0, 0] ++ 'Z' :: (digits2 5 ++ QUOTE :: (digits2 30
        ++ [QUOTE])) = "D:20240101120000Z05'30'".toList
    ∧ PdfDate.ofString timegm 26 (PdfString.ofText "D:20240101120000Z05'30'".toList)
      = { m_time := 1704110400, m_bValid := true,
          m_szDate := "D:20240101120000Z05'30'".toList } :=
  ⟨C15_Z_offsets_do_not_shift timegm 26 true 2024 [1, 1, 12, 0, 0] 5 30
      (by decide) (by decide) (by decide) (by decide), by decide, by decide⟩

/-- C16: the sentinel value -1 collides with real instants. A well-formed date
text (in the grammar that the code accepts, year 0..9999) is reported invalid
exactly when its calendar fields convert to -1 before the zone shift or its
shifted result equals -1; in every other case it is reported valid, and the
timestamp is the converted value moved by the zone, negative values other
than -1 included. -/
theorem C16_sentinel_collision (tg : tm → Int) (N : Nat) (d : DateText) (hd : d.ok = true) :
    ((PdfDate.ofString tg N (PdfString.ofText d.toText)).m_bValid = false
        ↔ (tg (civilTm d.year d.fields) = -1
            ∨ tg (civilTm d.year d.fields) - zoneOffset d.zone = -1))
    ∧ ((PdfDate.ofString tg N (PdfString.ofText d.toText)).m_bValid = true
        → (PdfDate.ofString tg N (PdfString.ofText d.toText)).m_time
            = tg (civilTm d.year d.fields) - zoneOffset d.zone) := by
  rw [ofString_ofText, parse_toText tg d hd]
  by_cases h1 : tg (civilTm d.year d.fields) = -1
  · simp [h1]
  · by_cases h2 : tg (civilTm d.year d.fields) - zoneOffset d.zone = -1
    · simp [h1, h2]
    · simp [h1, h2]

/-- C16 (witness): `D:19691231235959` converts to -1 and is invalid;
`D:19700101000059+00'01'` is shifted to -1 and is invalid; `D:19691231235958`
is valid with timestamp -2. -/
theorem C16_witness :
    (((PdfDate.ofString timegm 26
          (PdfString.ofText
            (DateText.toText ⟨true, 1969, [12, 31, 23, 59, 59], none⟩))).m_bValid = false
        ↔ (timegm (civilTm 1969 [12, 31, 23, 59, 59]) = -1
            ∨ timegm (civilTm 1969 [12, 31, 23, 59, 59]) - zoneOffset none = -1))
      ∧ ((PdfDate.ofString timegm 26
          (PdfString.ofText
            (DateText.toText ⟨true, 1969, [12, 31, 23, 59, 59], none⟩))).m_bValid = true
        → (PdfDate.ofString timegm 26
            (PdfString.ofText
              (DateText.toText ⟨true, 1969, [12, 31, 23, 59, 59], none⟩))).m_time
            = timegm (civilTm 1969 [12, 31, 23, 59, 59]) - zoneOffset none))
    ∧ PdfDate.ofString timegm 26 (PdfString.ofText "D:19691231235959".toList)
      = { m_time := -1, m_bValid := false, m_szDate := "D:19691231235959".toList }
    ∧ PdfDate.ofString timegm 26 (PdfString.ofText "D:19700101000059+00'01'".toList)
      = { m_time := -1, m_bValid := false, m_szDate := "D:19700101000059+00'01'".toList }
    ∧ PdfDate.ofString timegm 26 (PdfString.ofText "D:19691231235958".toList)
      = { m_time := -2, m_bValid := true, m_szDate := "D:19691231235958".toList } :=
  ⟨C16_sentinel_collision timegm 26 ⟨true, 1969, [12, 31, 23, 59, 59], none⟩ (by decide),
    by decide, by decide, by decide⟩

/-! ## The quoted minute offset -/

theorem quoted_minute_of_valid (tg : tm → Int) (sg : Char) (zh : Nat) (rest : List Char)
    (t : tm) (hsg : sg ≠ NUL)
    (h : (ParseZoneShift tg (sg :: (digits2 zh ++ QUOTE :: rest)) t).1 ≠ -1) :
    ∃ m, m ≤ 59 ∧ cstr rest = digits2 m ++ [QUOTE] := by
  obtain ⟨z, hz, hc, _, _⟩ := ParseZoneShift_inv tg _ t _ rfl h
  have hq : QUOTE ≠ NUL := by decide
  rw [cstr_cons_ne _ _ hsg, cstr_digits2, cstr_cons_ne _ _ hq] at hc
  cases z with
  | none => simp [zoneText] at hc
  | some z0 =>
    obtain ⟨_, _, hm⟩ := zone_sign_cases z0 (hz z0 rfl)
    rcases z0 with ⟨sg1, zh1, mn⟩
    cases mn with
    | none => simp [zoneText, digits2] at hc
    | some m =>
      refine ⟨m, hm m rfl, ?_⟩
      simp only [zoneText, digits2, List.cons_append, List.nil_append, List.cons.injEq] at hc
      simpa [digits2] using hc.2.2.2.2

/-- C13: quoted zone minutes are all or nothing. After well-formed calendar
fields, a zone sentinel and a valid two-digit hour offset, an opening quote
leaves the date valid only if the text after the quote, up to the terminator,
is exactly two digits with value 0..59 and a closing quote. Without an opening
quote, the zone of sentinel and hour offset alone is accepted: the timestamp
is the converted calendar value moved by the whole hours, and the date is
valid unless the sentinel value -1 is hit. -/
theorem C13_quoted_minutes (tg : tm → Int) (N : Nat) (mk : Bool) (year : Nat) (fs : List Nat)
    (sg : Char) (zh : Nat) (hy : year ≤ 9999) (hfs : fieldsOk fs = true)
    (hsg : sg = '+' ∨ sg = '-' ∨ sg = 'Z') (hzh : zh ≤ 59) :
    (∀ rest : List Char,
        (PdfDate.ofString tg N
          (PdfString.ofText (calendarText mk year fs
            ++ sg :: (digits2 zh ++ QUOTE :: rest)))).m_bValid = true
        → ∃ m, m ≤ 59 ∧ cstr rest = digits2 m ++ [QUOTE])
    ∧ (PdfDate.ofString tg N
        (PdfString.ofText (calendarText mk year fs ++ sg :: digits2 zh))).m_time
        = (if tg (civilTm year fs) = -1 then -1
           else tg (civilTm year fs) - zoneOffset (some ⟨sg, zh, none⟩))
    ∧ (PdfDate.ofString tg N
        (PdfString.ofText (calendarText mk year fs ++ sg :: digits2 zh))).m_bValid
        = decide ((if tg (civilTm year fs) = -1 then -1
                   else tg (civilTm year fs) - zoneOffset (some ⟨sg, zh, none⟩)) ≠ -1) := by
  have hnn : sg ≠ NUL := by
    rcases hsg with h | h | h <;> subst h <;> decide
  refine ⟨fun rest hv => ?_, ?_⟩
  · have hs : isSentinel (peek (sg :: (digits2 zh ++ QUOTE :: rest))) = true := by
      simp only [peek, List.headD_cons]
      rw [isSentinel_iff]
      exact Or.inr hsg
    rw [ofString_ofText, parse_calendarText tg mk year fs _ hy hfs (fun _ => hs)] at hv
    simp only [decide_eq_true_eq] at hv
    exact quoted_minute_of_valid tg sg zh rest _ hnn hv
  · have h1 := parse_with_zone tg mk year fs (some ⟨sg, zh, none⟩) hy hfs (by
      intro z0 hz0
      cases hz0
      simp only [Zone.ok, Bool.and_eq_true, Bool.or_eq_true, decide_eq_true_eq, and_true]
      exact ⟨by tauto, hzh⟩)
    simp only [zoneText, List.append_nil] at h1
    simp only [ofString_ofText, h1, and_self]

/-- C13 (witness): `D:20240101120000+05'30` and `D:20240101120000+05'` are invalid,
`D:20240101120000+05'30'` and `D:20240101120000+05` are valid. -/
theorem C13_witness :
    ((∀ rest : List Char,
        (PdfDate.ofString timegm 26
          (PdfString.ofText (calendarText true 2024 [1, 1, 12, 0, 0]
            ++ '+' :: (digits2 5 ++ QUOTE :: rest)))).m_bValid = true
        → ∃ m, m ≤ 59 ∧ cstr rest = digits2 m ++ [QUOTE])
      ∧ (PdfDate.ofString timegm 26
          (PdfString.ofText (calendarText true 2024 [1, 1, 12, 0, 0] ++ '+' :: digits2 5))).m_time
          = (if timegm (civilTm 2024 [1, 1, 12, 0, 0]) = -1 then -1
             else timegm (civilTm 2024 [1, 1, 12, 0, 0]) - zoneOffset (some ⟨'+', 5, none⟩))
      ∧ (PdfDate.ofString timegm 26
          (PdfString.ofText (calendarText true 2024 [1, 1, 12, 0, 0]
            ++ '+' :: digits2 5))).m_bValid
          = decide ((if timegm (civilTm 2024 [1, 1, 12, 0, 0]) = -1 then -1
              else timegm (civilTm 2024 [1, 1, 12, 0, 0])
                - zoneOffset (some ⟨'+', 5, none⟩)) ≠ -1))
    ∧ (PdfDate.ofString timegm 26 (PdfString.ofText "D:20240101120000+05'30".toList)).m_bValid
        = false
    ∧ (PdfDate.ofString timegm 26 (PdfString.ofText "D:20240101120000+05'".toList)).m_bValid
        = false
    ∧ (PdfDate.ofString timegm 26 (PdfString.ofText "D:20240101120000+05'30'".toList)).m_bValid
        = true
    ∧ PdfDate.ofString timegm 26 (PdfString.ofText "D:20240101120000+05".toList)
        = { m_time := 1704092400, m_bValid := true, m_szDate := "D:20240101120000+05".toList } :=
  ⟨C13_quoted_minutes timegm 26 true 2024 [1, 1, 12, 0, 0] '+' 5 (by decide) (by decide)
      (by decide) (by decide),
    by decide, by decide, by decide, by decide⟩

/-! ## Days beyond the end of the month -/

theorem timegm_day_overflow (year mo dd : Nat) (tl : List Nat)
    (hmo1 : 1 ≤ mo) (hmo : mo ≤ 12) (hover : daysInMonth year mo < dd) (hdd : dd ≤ 31) :
    timegm (civilTm year (mo :: dd :: tl))
      = timegm (civilTm year ((mo + 1) :: (dd - daysInMonth year mo) :: tl)) := by
  have hsub : ∀ k : Nat, k < dd → ((dd - k : Nat) : Int) = (dd : Int) - (k : Int) := by
    intro k hk
    omega
  unfold timegm civilTm
  simp only [List.getD_cons_zero, List.getD_cons_succ]
  interval_cases mo <;> simp [daysInMonth] at hover <;> try omega
  all_goals
    simp only [daysInMonth]
    by_cases hl : isLeapYear (year : Int) = true
    all_goals
      simp [hl, daysBeforeMonth] at hover ⊢
      try rw [hsub _ hover]
      try push_cast
      try omega

theorem daysInMonth_bounds (year mo : Nat) :
    28 ≤ daysInMonth year mo ∧ daysInMonth year mo ≤ 31 := by
  unfold daysInMonth
  split_ifs <;> omega

theorem daysInMonth_december (year : Nat) : daysInMonth year 12 = 31 := by
  simp [daysInMonth]

theorem fieldsOk_overflow (year mo dd : Nat) (tl : List Nat)
    (hfs : fieldsOk (mo :: dd :: tl) = true) (hover : daysInMonth year mo < dd) :
    fieldsOk ((mo + 1) :: (dd - daysInMonth year mo) :: tl) = true
      ∧ 1 ≤ mo ∧ mo ≤ 12 ∧ dd ≤ 31 := by
  have hb := daysInMonth_bounds year mo
  simp only [fieldsOk, fieldRanges, inRanges, Bool.and_eq_true, decide_eq_true_eq] at hfs ⊢
  obtain ⟨⟨hmo1, hmo12⟩, ⟨hd1, hd31⟩, htl⟩ := hfs
  have hne : mo ≠ 12 := by
    intro h
    rw [h, daysInMonth_december] at hover
    omega
  exact ⟨⟨⟨by omega, by omega⟩, ⟨by omega, by omega⟩, htl⟩, hmo1, hmo12, hd31⟩

/-- C17: the day is checked against 1..31 only, not against the length of the
month. For every year and month and every day from 1 to 31 that exceeds the
number of days of that month, the date is treated exactly like the date with
the next month and the day reduced by the length of the month: same validity
flag and same timestamp, whatever fields and zone follow. A text of year,
month and such a day alone is valid, with the timestamp of the overflow date
in the following month. -/
theorem C17_day_beyond_month_end (N : Nat) (mk : Bool) (year mo dd : Nat) (tl : List Nat)
    (z : Option Zone) (hy : year ≤ 9999) (hfs : fieldsOk (mo :: dd :: tl) = true)
    (hz : ∀ z0, z = some z0 → z0.ok = true) (hover : daysInMonth year mo < dd) :
    ((PdfDate.ofString timegm N
        (PdfString.ofText (calendarText mk year (mo :: dd :: tl) ++ zoneText z))).m_bValid
      = (PdfDate.ofString timegm N
          (PdfString.ofText (calendarText mk year
            ((mo + 1) :: (dd - daysInMonth year mo) :: tl) ++ zoneText z))).m_bValid
    ∧ (PdfDate.ofString timegm N
        (PdfString.ofText (calendarText mk year (mo :: dd :: tl) ++ zoneText z))).m_time
      = (PdfDate.ofString timegm N
          (PdfString.ofText (calendarText mk year
            ((mo + 1) :: (dd - daysInMonth year mo) :: tl) ++ zoneText z))).m_time)
    ∧ (tl = [] →
        (PdfDate.ofString timegm N
          (PdfString.ofText (calendarText mk year [mo, dd]))).m_bValid = true
        ∧ (PdfDate.ofString timegm N
            (PdfString.ofText (calendarText mk year [mo, dd]))).m_time
          = timegm (civilTm year [mo + 1, dd - daysInMonth year mo])) := by
  obtain ⟨hfs2, hmo1, hmo12, hdd⟩ := fieldsOk_overflow year mo dd tl hfs hover
  have ht := timegm_day_overflow year mo dd tl hmo1 hmo12 hover hdd
  have h1 := parse_with_zone timegm mk year (mo :: dd :: tl) z hy hfs hz
  have h2 := parse_with_zone timegm mk year ((mo + 1) :: (dd - daysInMonth year mo) :: tl) z
    hy hfs2 hz
  refine ⟨?_, fun htl => ?_⟩
  · simp only [ofString_ofText, h1, h2, ht, and_self]
  · subst htl
    have hne : timegm (civilTm year [mo, dd]) ≠ -1 :=
      timegm_ne_of_sec_zero _ (civilTm_sec_of_short year [mo, dd] (by simp))
    have h3 := parse_calendar_only timegm mk year [mo, dd] hy hfs hne
    rw [ofString_ofText, h3]
    exact ⟨rfl, ht⟩

/-- C17 (witness): `D:20240231` is valid and has the timestamp of `D:20240302`. -/
theorem C17_witness :
    (((PdfDate.ofString timegm 26
        (PdfString.ofText (calendarText true 2024 (2 :: 31 :: []) ++ zoneText none))).m_bValid
      = (PdfDate.ofString timegm 26
          (PdfString.ofText (calendarText true 2024
            ((2 + 1) :: (31 - daysInMonth 2024 2) :: []) ++ zoneText none))).m_bValid
    ∧ (PdfDate.ofString timegm 26
        (PdfString.ofText (calendarText true 2024 (2 :: 31 :: []) ++ zoneText none))).m_time
      = (PdfDate.ofString timegm 26
          (PdfString.ofText (calendarText true 2024
            ((2 + 1) :: (31 - daysInMonth 2024 2) :: []) ++ zoneText none))).m_time)
    ∧ (([] : List Nat) = [] →
        (PdfDate.ofString timegm 26
          (PdfString.ofText (calendarText true 2024 [2, 31]))).m_bValid = true
        ∧ (PdfDate.ofString timegm 26
            (PdfString.ofText (calendarText true 2024 [2, 31]))).m_time
          = timegm (civilTm 2024 [2 + 1, 31 - daysInMonth 2024 2])))
    ∧ PdfDate.ofString timegm 26 (PdfString.ofText "D:20240231".toList)
      = { m_time := 1709337600, m_bValid := true, m_szDate := "D:20240231".toList }
    ∧ PdfDate.ofString timegm 26 (PdfString.ofText "D:20240302".toList)
      = { m_time := 1709337600, m_bValid := true, m_szDate := "D:20240302".toList } :=
  ⟨C17_day_beyond_month_end 26 true 2024 2 31 [] none (by decide) (by decide) (by simp)
      (by decide),
    by decide, by decide⟩

/-! ## The rendered text -/

theorem peek_drop (buf : List Char) (i : Nat) : peek (buf.drop i) = buf.getD i NUL := by
  induction buf generalizing i with
  | nil => simp [peek]
  | cons c t ih =>
    cases i with
    | zero => simp [peek]
    | succ k => simpa using ih k

theorem readAt_eq (buf : List Char) (i : Nat) (hi : i ≤ termPos buf) :
    readAt buf i = some (peek (buf.drop i)) := by
  unfold readAt
  rw [if_pos hi, peek_drop]

theorem termPos_cons (c : Char) (t : List Char) :
    termPos (c :: t) = if c ≠ NUL then termPos t + 1 else 0 := by
  unfold termPos cstr
  by_cases h : c = NUL
  · simp [List.takeWhile_cons, h]
  · simp [List.takeWhile_cons, h]

theorem advance (buf : List Char) (i : Nat) (hi : i ≤ termPos buf)
    (hc : peek (buf.drop i) ≠ NUL) :
    buf.drop i = peek (buf.drop i) :: buf.drop (i + 1) ∧ i + 1 ≤ termPos buf := by
  induction buf generalizing i with
  | nil => simp [peek] at hc
  | cons c t ih =>
    cases i with
    | zero =>
      have hcn : c ≠ NUL := by simpa [peek] using hc
      rw [termPos_cons, if_pos hcn]
      exact ⟨by simp [peek], by omega⟩
    | succ k =>
      have hcn : c ≠ NUL := by
        intro h
        rw [termPos_cons, h] at hi
        simp at hi
      rw [termPos_cons, if_pos hcn] at hi ⊢
      have hk : k ≤ termPos t := by omega
      have := ih k hk (by simpa using hc)
      exact ⟨by simpa using this.1, by omega⟩

theorem isdigit_ne_NUL (c : Char) (h : isdigit c = true) : c ≠ NUL := by
  intro hc
  rw [hc] at h
  exact absurd h (by decide)

theorem loop_checked (buf : List Char) (n i : Nat) (acc : Int) (hi : i ≤ termPos buf) :
    ∃ j, Checked.loop buf n i acc
        = some ((ParseFixLenNumber.loop n (buf.drop i) acc).1, j,
            (ParseFixLenNumber.loop n (buf.drop i) acc).2.2)
      ∧ (ParseFixLenNumber.loop n (buf.drop i) acc).2.1 = buf.drop j ∧ j ≤ termPos buf := by
  induction n generalizing i acc with
  | zero => exact ⟨i, rfl, rfl, hi⟩
  | succ n ih =>
    unfold Checked.loop
    rw [readAt_eq buf i hi]
    simp only []
    by_cases hd : isdigit (peek (buf.drop i)) = true
    · obtain ⟨hcons, hi1⟩ := advance buf i hi (isdigit_ne_NUL _ hd)
      rw [if_pos hd]
      obtain ⟨j, h1, h2, h3⟩ := ih (i + 1)
        (wrapInt (acc * 10 + (((peek (buf.drop i)).toNat : Int) - 48))) hi1
      have hstep : ParseFixLenNumber.loop (n + 1) (buf.drop i) acc
          = ParseFixLenNumber.loop n (buf.drop (i + 1))
              (wrapInt (acc * 10 + (((peek (buf.drop i)).toNat : Int) - 48))) := by
        have h0 : ParseFixLenNumber.loop (n + 1) (peek (buf.drop i) :: buf.drop (i + 1)) acc
            = ParseFixLenNumber.loop n (buf.drop (i + 1))
                (wrapInt (acc * 10 + (((peek (buf.drop i)).toNat : Int) - 48))) := by
          simp only [ParseFixLenNumber.loop, hd, if_true]
        rw [← hcons] at h0
        exact h0
      rw [hstep]
      exact ⟨j, h1, h2, h3⟩
    · rw [if_neg hd]
      refine ⟨i, ?_, ?_, hi⟩
      · generalize hp : buf.drop i = p0 at hd
        cases p0 with
        | nil => rfl
        | cons c rest =>
          have hc : ¬ isdigit c = true := by simpa [peek] using hd
          simp only [ParseFixLenNumber.loop, if_neg hc]
      · generalize hp : buf.drop i = p0 at hd
        cases p0 with
        | nil => rfl
        | cons c rest =>
          have hc : ¬ isdigit c = true := by simpa [peek] using hd
          simp only [ParseFixLenNumber.loop, if_neg hc]

theorem PFN_checked (buf : List Char) (i w : Nat) (lo hi r : Int) (hi0 : i ≤ termPos buf) :
    ∃ j, Checked.ParseFixLenNumber buf i w lo hi r
        = some ((ParseFixLenNumber (buf.drop i) w lo hi r).1, j,
            (ParseFixLenNumber (buf.drop i) w lo hi r).2.2)
      ∧ (ParseFixLenNumber (buf.drop i) w lo hi r).2.1 = buf.drop j ∧ j ≤ termPos buf := by
  unfold Checked.ParseFixLenNumber ParseFixLenNumber
  rw [readAt_eq buf i hi0]
  simp only []
  by_cases hs : peek (buf.drop i) = NUL ∨ peek (buf.drop i) = '+' ∨ peek (buf.drop i) = '-'
      ∨ peek (buf.drop i) = 'Z'
  · rw [if_pos hs, if_pos hs]
    exact ⟨i, rfl, rfl, hi0⟩
  · rw [if_neg hs, if_neg hs]
    obtain ⟨j, h1, h2, h3⟩ := loop_checked buf w i 0 hi0
    rw [h1]
    rcases hl : ParseFixLenNumber.loop w (buf.drop i) 0 with ⟨b, cur, v⟩
    rw [hl] at h2
    simp only at h2
    cases b with
    | false => exact ⟨j, rfl, h2, h3⟩
    | true =>
      simp only []
      split_ifs
      · exact ⟨j, rfl, h2, h3⟩
      · exact ⟨j, rfl, h2, h3⟩

theorem sec_checked (buf : List Char) (i : Nat) (t : tm) (hi : i ≤ termPos buf) :
    ∃ j, Checked.ParseOptionalFields.sec buf i t
        = some ((ParseOptionalFields.sec (buf.drop i) t).1, j,
            (ParseOptionalFields.sec (buf.drop i) t).2.2)
      ∧ (ParseOptionalFields.sec (buf.drop i) t).2.1 = buf.drop j ∧ j ≤ termPos buf := by
  unfold Checked.ParseOptionalFields.sec ParseOptionalFields.sec
  obtain ⟨j, h1, h2, h3⟩ := PFN_checked buf i 2 0 59 t.tm_sec hi
  rw [h1]
  rcases hres : ParseFixLenNumber (buf.drop i) 2 0 59 t.tm_sec with ⟨tag, p, v⟩
  rw [hres] at h2
  simp only at h2
  cases tag with
  | Error => exact ⟨j, rfl, h2, h3⟩
  | Missing => exact ⟨j, rfl, h2, h3⟩
  | Ok => exact ⟨j, rfl, h2, h3⟩

theorem min_checked (buf : List Char) (i : Nat) (t : tm) (hi : i ≤ termPos buf) :
    ∃ j, Checked.ParseOptionalFields.min buf i t
        = some ((ParseOptionalFields.min (buf.drop i) t).1, j,
            (ParseOptionalFields.min (buf.drop i) t).2.2)
      ∧ (ParseOptionalFields.min (buf.drop i) t).2.1 = buf.drop j ∧ j ≤ termPos buf := by
  unfold Checked.ParseOptionalFields.min ParseOptionalFields.min
  obtain ⟨j, h1, h2, h3⟩ := PFN_checked buf i 2 0 59 t.tm_min hi
  rw [h1]
  rcases hres : ParseFixLenNumber (buf.drop i) 2 0 59 t.tm_min with ⟨tag, p, v⟩
  rw [hres] at h2
  simp only at h2
  cases tag with
  | Error => exact ⟨j, rfl, h2, h3⟩
  | Missing => exact ⟨j, rfl, h2, h3⟩
  | Ok =>
    subst h2
    exact sec_checked buf j _ h3

theorem hour_checked (buf : List Char) (i : Nat) (t : tm) (hi : i ≤ termPos buf) :
    ∃ j, Checked.ParseOptionalFields.hour buf i t
        = some ((ParseOptionalFields.hour (buf.drop i) t).1, j,
            (ParseOptionalFields.hour (buf.drop i) t).2.2)
      ∧ (ParseOptionalFields.hour (buf.drop i) t).2.1 = buf.drop j ∧ j ≤ termPos buf := by
  unfold Checked.ParseOptionalFields.hour ParseOptionalFields.hour
  obtain ⟨j, h1, h2, h3⟩ := PFN_checked buf i 2 0 23 t.tm_hour hi
  rw [h1]
  rcases hres : ParseFixLenNumber (buf.drop i) 2 0 23 t.tm_hour with ⟨tag, p, v⟩
  rw [hres] at h2
  simp only at h2
  cases tag with
  | Error => exact ⟨j, rfl, h2, h3⟩
  | Missing => exact ⟨j, rfl, h2, h3⟩
  | Ok =>
    subst h2
    exact min_checked buf j _ h3

theorem mday_checked (buf : List Char) (i : Nat) (t : tm) (hi : i ≤ termPos buf) :
    ∃ j, Checked.ParseOptionalFields.mday buf i t
        = some ((ParseOptionalFields.mday (buf.drop i) t).1, j,
            (ParseOptionalFields.mday (buf.drop i) t).2.2)
      ∧ (ParseOptionalFields.mday (buf.drop i) t).2.1 = buf.drop j ∧ j ≤ termPos buf := by
  unfold Checked.ParseOptionalFields.mday ParseOptionalFields.mday
  obtain ⟨j, h1, h2, h3⟩ := PFN_checked buf i 2 1 31 t.tm_mday hi
  rw [h1]
  rcases hres : ParseFixLenNumber (buf.drop i) 2 1 31 t.tm_mday with ⟨tag, p, v⟩
  rw [hres] at h2
  simp only at h2
  cases tag with
  | Error => exact ⟨j, rfl, h2, h3⟩
  | Missing => exact ⟨j, rfl, h2, h3⟩
  | Ok =>
    subst h2
    exact hour_checked buf j _ h3

theorem ParseOptionalFields_checked (buf : List Char) (i : Nat) (t : tm)
    (hi : i ≤ termPos buf) :
    ∃ j, Checked.ParseOptionalFields buf i t
        = some ((ParseOptionalFields (buf.drop i) t).1, j,
            (ParseOptionalFields (buf.drop i) t).2.2)
      ∧ (ParseOptionalFields (buf.drop i) t).2.1 = buf.drop j ∧ j ≤ termPos buf := by
  unfold Checked.ParseOptionalFields ParseOptionalFields
  obtain ⟨j, h1, h2, h3⟩ := PFN_checked buf i 2 1 12 t.tm_mon hi
  rw [h1]
  rcases hres : ParseFixLenNumber (buf.drop i) 2 1 12 t.tm_mon with ⟨tag, p, v⟩
  rw [hres] at h2
  simp only at h2
  cases tag with
  | Error => exact ⟨j, rfl, h2, h3⟩
  | Missing => exact ⟨j, rfl, h2, h3⟩
  | Ok =>
    subst h2
    exact mday_checked buf j _ h3

theorem finish_checked (tg : tm → Int) (buf : List Char) (i : Nat) (t : tm) (sh zh zm : Int)
    (hi : i ≤ termPos buf) :
    Checked.finish tg buf i t sh zh zm
      = some ((ParseZoneShift.finish tg (buf.drop i) t sh zh zm).1, i) := by
  unfold Checked.finish ParseZoneShift.finish
  rw [readAt_eq buf i hi]
  simp only []
  by_cases h : peek (buf.drop i) ≠ NUL
  · rw [if_pos h, if_pos h]
  · rw [if_neg h, if_neg h]
    by_cases h1 : tg t = -1
    · simp only [h1, if_true]
    · simp only [h1, if_false]

theorem ParseZoneShift_of_NUL (tg : tm → Int) (p : List Char) (t : tm) (h : peek p = NUL) :
    ParseZoneShift tg p t = ParseZoneShift.finish tg p t 0 0 0 := by
  cases p with
  | nil => rfl
  | cons c rest =>
    have hc : c = NUL := by simpa [peek] using h
    simp only [ParseZoneShift, if_pos hc]

theorem ParseZoneShift_checked (tg : tm → Int) (buf : List Char) (i : Nat) (t : tm)
    (hi : i ≤ termPos buf) :
    ∃ j, Checked.ParseZoneShift tg buf i t
      = some ((ParseZoneShift tg (buf.drop i) t).1, j) := by
  unfold Checked.ParseZoneShift
  rw [readAt_eq buf i hi]
  simp only []
  by_cases hc : peek (buf.drop i) = NUL
  · rw [if_pos hc, ParseZoneShift_of_NUL tg _ t hc, finish_checked tg buf i t 0 0 0 hi]
    exact ⟨i, rfl⟩
  · rw [if_neg hc]
    obtain ⟨hcons, hi1⟩ := advance buf i hi hc
    generalize hcv : peek (buf.drop i) = c at hc hcons
    rw [hcons]
    simp only [ParseZoneShift, if_neg hc]
    generalize (if c = '+' then some (-1 : Int) else if c = '-' then some 1
      else if c = 'Z' then some 0 else none) = sign
    cases sign with
    | none => exact ⟨i, rfl⟩
    | some sh =>
      simp only []
      obtain ⟨j, h1, h2, h3⟩ := PFN_checked buf (i + 1) 2 0 59 0 hi1
      rw [h1]
      rcases hres : ParseFixLenNumber (buf.drop (i + 1)) 2 0 59 0 with ⟨tag, p, zh⟩
      rw [hres] at h2
      simp only at h2
      cases tag with
      | Error => exact ⟨j, rfl⟩
      | Missing => exact ⟨j, rfl⟩
      | Ok =>
        subst h2
        simp only []
        rw [readAt_eq buf j h3]
        simp only []
        by_cases hq : peek (buf.drop j) = QUOTE
        · have hqn : peek (buf.drop j) ≠ NUL := by rw [hq]; decide
          obtain ⟨hcons2, hj1⟩ := advance buf j h3 hqn
          rw [hq] at hcons2
          rw [if_pos hq, hcons2]
          simp only [if_true]
          obtain ⟨j2, g1, g2, g3⟩ := PFN_checked buf (j + 1) 2 0 59 0 hj1
          rw [g1]
          rcases hres2 : ParseFixLenNumber (buf.drop (j + 1)) 2 0 59 0 with ⟨tag2, p2, zm⟩
          rw [hres2] at g2
          simp only at g2
          cases tag2 with
          | Error => exact ⟨j2, rfl⟩
          | Missing => exact ⟨j2, rfl⟩
          | Ok =>
            subst g2
            simp only []
            rw [readAt_eq buf j2 g3]
            simp only []
            by_cases hq2 : peek (buf.drop j2) = QUOTE
            · have hqn2 : peek (buf.drop j2) ≠ NUL := by rw [hq2]; decide
              obtain ⟨hcons3, hj3⟩ := advance buf j2 g3 hqn2
              rw [hq2] at hcons3
              rw [if_pos hq2, finish_checked tg buf (j2 + 1) t sh zh zm hj3, hcons3]
              simp only [if_true]
              exact ⟨j2 + 1, rfl⟩
            · rw [if_neg hq2]
              refine ⟨j2, ?_⟩
              generalize buf.drop j2 = p0 at hq2
              cases p0 with
              | nil => rfl
              | cons q2 p3 =>
                have hq2' : q2 ≠ QUOTE := by simpa [peek] using hq2
                simp only [if_neg hq2']
        · rw [if_neg hq, finish_checked tg buf j t sh zh 0 h3]
          refine ⟨j, ?_⟩
          generalize buf.drop j = p0 at hq
          cases p0 with
          | nil => rfl
          | cons q p1 =>
            have hq' : q ≠ QUOTE := by simpa [peek] using hq
            simp only [if_neg hq']

theorem parseFrom_checked (tg : tm → Int) (buf : List Char) (i : Nat)
    (hi : i ≤ termPos buf) :
    Checked.parseFrom tg buf i = some (PdfDate.parseFrom tg (buf.drop i)) := by
  unfold Checked.parseFrom PdfDate.parseFrom
  obtain ⟨j, h1, h2, h3⟩ := PFN_checked buf i 4 0 9999 tmInit.tm_year hi
  rw [h1]
  rcases hres : ParseFixLenNumber (buf.drop i) 4 0 9999 tmInit.tm_year with ⟨tag, p, v⟩
  rw [hres] at h2
  simp only at h2
  cases tag with
  | Error => rfl
  | Missing => rfl
  | Ok =>
    subst h2
    simp only []
    obtain ⟨j1, g1, g2, g3⟩ := ParseOptionalFields_checked buf j
      ({ tmInit with tm_year := v - 1900 } : tm) h3
    rw [g1]
    rcases hres2 : ParseOptionalFields (buf.drop j)
      ({ tmInit with tm_year := v - 1900 } : tm) with ⟨b, p1, t1⟩
    rw [hres2] at g2
    simp only at g2
    cases b with
    | false => rfl
    | true =>
      subst g2
      simp only []
      obtain ⟨j2, k1⟩ := ParseZoneShift_checked tg buf j1 t1 g3
      rw [k1]

theorem readAt_examples :
    readAt "D:2024".toList 5 = some '4' ∧ readAt "D:2024".toList 6 = some NUL
      ∧ readAt "D:2024".toList 7 = none := by
  decide

theorem parse_D_not_colon (tg : tm → Int) (rest : List Char) (h : peek rest ≠ ':') :
    PdfDate.parse tg ('D' :: rest) = (-1, false) := by
  unfold PdfDate.parse
  cases rest with
  | nil => rfl
  | cons c1 rest1 =>
    have hc : c1 ≠ ':' := by simpa [peek] using h
    simp only [if_true, if_pos hc]

/-- C19: no character access of the parse lies beyond the terminator of the
string. In the embedding with checked accesses, where the cursor is an index
into the buffer and an access beyond the terminator is undefined, the parse
(marker test, `ParseFixLenNumber`, `ParseOptionalFields`, `ParseZoneShift`)
is defined on every buffer, and its result is the result of the parse. -/
theorem C19_no_access_beyond_terminator (tg : tm → Int) (buf : List Char) :
    Checked.parse tg buf = some (PdfDate.parse tg buf) := by
  have h0 : (0 : Nat) ≤ termPos buf := Nat.zero_le _
  unfold Checked.parse
  rw [readAt_eq buf 0 h0]
  simp only [List.drop_zero]
  by_cases hD : peek buf = 'D'
  · have hn : peek (buf.drop 0) ≠ NUL := by
      rw [List.drop_zero, hD]
      decide
    obtain ⟨hcons, h1⟩ := advance buf 0 h0 hn
    rw [List.drop_zero, hD] at hcons
    simp only [Nat.zero_add] at hcons h1
    rw [if_pos hD, readAt_eq buf 1 h1]
    simp only []
    by_cases hc : peek (buf.drop 1) = ':'
    · have hn2 : peek (buf.drop 1) ≠ NUL := by
        rw [hc]
        decide
      obtain ⟨hcons2, h2⟩ := advance buf 1 h1 hn2
      rw [hc] at hcons2
      have hb : buf = 'D' :: ':' :: buf.drop 2 := by
        rw [← hcons2]
        exact hcons
      have e : PdfDate.parse tg buf = PdfDate.parseFrom tg (buf.drop 2) := by
        conv_lhs => rw [hb]
        exact parse_D_colon tg _
      have hnn : ¬ (peek (buf.drop 1) ≠ ':') := by simpa using hc
      rw [if_neg hnn, e]
      exact parseFrom_checked tg buf 2 h2
    · have e : PdfDate.parse tg buf = (-1, false) := by
        conv_lhs => rw [hcons]
        exact parse_D_not_colon tg _ hc
      rw [if_pos hc, e]
  · rw [if_neg hD, parse_of_not_D tg buf hD]
    have := parseFrom_checked tg buf 0 h0
    rwa [List.drop_zero] at this

end PoDoFo
